import Mathlib

/-!
Shallow embedding of the WrapVTK hierarchy-merge core.

Source files embedded here:
* Wrapping/vtkParseMerge.c  — the MergeInfo registry operations and the
  class merge (PushClass, PushFunction, PushOverride, CreateMergeInfo,
  copy_function, merge_function, Merge);
* the vtkWrapXML driver (MergeHelper / MergeSuperClasses) that resolves
  declared base-class names and walks the hierarchy.

C structures become Lean structures; the C dynamic arrays are modelled at
two levels: as plain lists (value semantics — a realloc-and-copy is the
identity on the stored values), and, where a claim is about the capacity
bookkeeping itself, as explicit capacity/size arrays (CapArr) that mirror
the malloc/copy/free code paths.  NULL char pointers become Option String.
-/

set_option maxRecDepth 4000

namespace WrapVTK

/-- FunctionInfo: the fields of the C struct that the merge code reads or
writes (Name, NumberOfArguments, ArgTypes, ArgClasses, ReturnClass,
Comment, Signature, IsVirtual).  NULL strings are `none`. -/
structure FunctionInfo where
  Name : Option String
  NumberOfArguments : Nat
  ArgTypes : List Nat
  ArgClasses : List (Option String)
  ReturnClass : Option String
  Comment : Option String
  Signature : Option String
  IsVirtual : Bool
deriving Repr, DecidableEq, Inhabited

/-- ClassInfo: class name (accessed as ClassName in vtkParseMerge.c and as
Name in the vtkWrapXML driver), declared superclass names, and the method
list (Functions / NumberOfFunctions). -/
structure ClassInfo where
  Name : String
  SuperClasses : List String
  Functions : List FunctionInfo
deriving Repr, DecidableEq, Inhabited

/-- NamespaceInfo: the classes declared in one parsed file. -/
structure NamespaceInfo where
  Classes : List ClassInfo
deriving Repr, DecidableEq, Inhabited

/-- MergeInfo at value level: ClassNames is the contributor registry
(NumberOfClasses is its length); OverrideClasses is the per-flattened-method
override chain list (NumberOfFunctions is its length, and the C array
NumberOfOverrides holds the lengths of the individual chains). -/
structure MergeInfo where
  ClassNames : List String
  OverrideClasses : List (List Nat)
deriving Repr, DecidableEq, Inhabited

/-- NumberOfClasses field of the C MergeInfo: the length of ClassNames. -/
def MergeInfo.NumberOfClasses (info : MergeInfo) : Nat :=
  info.ClassNames.length

/-- NumberOfFunctions field of the C MergeInfo: the length of the parallel
override arrays. -/
def MergeInfo.NumberOfFunctions (info : MergeInfo) : Nat :=
  info.OverrideClasses.length

/-- NumberOfFunctions field of the C ClassInfo. -/
def ClassInfo.NumberOfFunctions (c : ClassInfo) : Nat :=
  c.Functions.length

/-- The scan loop of vtkParseMerge_PushClass: first index whose entry
compares equal to the name, if any. -/
def findClassIndex : List String → String → Option Nat
  | [], _ => none
  | c :: rest, name =>
      if c = name then some 0 else (findClassIndex rest name).map (· + 1)

/-- vtkParseMerge_PushClass: return the index of an existing occurrence of
the class name, else append it and return the new index.  (The realloc
growth is value-invisible here; see the CapArr level below.) -/
def vtkParseMerge_PushClass (info : MergeInfo) (classname : String) :
    Nat × MergeInfo :=
  match findClassIndex info.ClassNames classname with
  | some i => (i, info)
  | none =>
      (info.ClassNames.length,
       { info with ClassNames := info.ClassNames ++ [classname] })

/-- vtkParseMerge_PushFunction: append a fresh override chain holding just
the given depth, returning the index of the new chain. -/
def vtkParseMerge_PushFunction (info : MergeInfo) (depth : Nat) :
    Nat × MergeInfo :=
  (info.OverrideClasses.length,
   { info with OverrideClasses := info.OverrideClasses ++ [[depth]] })

/-- vtkParseMerge_PushOverride: if the depth is already on chain i the C
code returns the function index i unchanged; otherwise the depth is
appended to chain i and the index of the appended slot is returned. -/
def vtkParseMerge_PushOverride (info : MergeInfo) (i : Nat) (depth : Nat) :
    Nat × MergeInfo :=
  if depth ∈ info.OverrideClasses.getD i [] then
    (i, info)
  else
    ((info.OverrideClasses.getD i []).length,
     { info with OverrideClasses := info.OverrideClasses.set i (info.OverrideClasses.getD i [] ++ [depth]) })

/-- vtkParseMerge_CreateMergeInfo: push the root class name, then one
override chain [0] per root method. -/
def vtkParseMerge_CreateMergeInfo (classInfo : ClassInfo) : MergeInfo :=
  let info : MergeInfo := { ClassNames := [], OverrideClasses := [] }
  let info := (vtkParseMerge_PushClass info classInfo.Name).2
  classInfo.Functions.foldl
    (fun info _ => (vtkParseMerge_PushFunction info 0).2) info

/-- copy_function: memcpy of the struct followed by fresh copies of the
owned strings — the identity on the value level. -/
def copy_function (func : FunctionInfo) : FunctionInfo := func

/-- merge_function: OR the virtual flag into the target; copy the comment
from func only when func has one and the target does not. -/
def merge_function (merge func : FunctionInfo) : FunctionInfo :=
  let merge := if func.IsVirtual then { merge with IsVirtual := true } else merge
  if func.Comment.isSome && merge.Comment.isNone then
    { merge with Comment := func.Comment }
  else merge

/-- The argument comparison of the override check in vtkParseMerge_Merge:
equal argument counts and equal ArgTypes codes at every position below the
count. -/
def sigMatches (f2 func : FunctionInfo) : Bool :=
  f2.NumberOfArguments == func.NumberOfArguments &&
  (List.range f2.NumberOfArguments).all
    (fun k => f2.ArgTypes.getD k 0 == func.ArgTypes.getD k 0)

/-- One iteration of the inner j-loop of vtkParseMerge_Merge: compare the
super method func against flattened entry j; on a name match set the match
flag, and additionally merge in place and push the override when the
signatures agree. -/
def mergeMatchStep (fname : String) (func : FunctionInfo) (depth : Nat)
    (acc : Bool × MergeInfo × ClassInfo) (j : Nat) :
    Bool × MergeInfo × ClassInfo :=
  let (mtch, info, merge) := acc
  let f2 := merge.Functions.getD j default
  match f2.Name with
  | some f2name =>
      if f2name = fname then
        if sigMatches f2 func then
          let f2m := merge_function f2 func
          let merge := { merge with Functions := merge.Functions.set j f2m }
          let info := (vtkParseMerge_PushOverride info j depth).2
          (true, info, merge)
        else (true, info, merge)
      else (mtch, info, merge)
  | none => (mtch, info, merge)

/-- The inner j-loop of vtkParseMerge_Merge over a list of candidate
indices. -/
def mergeInner (fname : String) (func : FunctionInfo) (depth : Nat)
    (js : List Nat) (acc : Bool × MergeInfo × ClassInfo) :
    Bool × MergeInfo × ClassInfo :=
  js.foldl (mergeMatchStep fname func depth) acc

/-- The constructor/destructor test of vtkParseMerge_Merge: the method name
equals the class name, or its first character is a tilde and the rest of it
equals the class name. -/
def isCtorDtorOf (fname superName : String) : Bool :=
  (fname == superName) ||
  (match fname.data with
   | [] => false
   | c :: rest => c == '~' && rest == superName.data)

/-- One iteration of the outer i-loop of vtkParseMerge_Merge: skip unnamed
methods and the constructors/destructors of the super class; otherwise scan
the current flattened list, and append a deep copy with a fresh chain when
no entry shares the name. -/
def mergeStep (superName : String) (depth : Nat)
    (state : MergeInfo × ClassInfo) (func : FunctionInfo) :
    MergeInfo × ClassInfo :=
  let (info, merge) := state
  match func.Name with
  | none => (info, merge)
  | some fname =>
      if isCtorDtorOf fname superName then
        (info, merge)
      else
        let r := mergeInner fname func depth
          (List.range merge.Functions.length) (false, info, merge)
        if r.1 then (r.2.1, r.2.2)
        else
          let info := (vtkParseMerge_PushFunction r.2.1 depth).2
          let merge := { r.2.2 with
            Functions := r.2.2.Functions ++ [copy_function func] }
          (info, merge)

/-- vtkParseMerge_Merge: register the super class (depth), then process its
methods in declaration order. -/
def vtkParseMerge_Merge (info : MergeInfo) (merge : ClassInfo)
    (super : ClassInfo) : Nat × MergeInfo × ClassInfo :=
  let (depth, info) := vtkParseMerge_PushClass info super.Name
  let (info, merge) := super.Functions.foldl (mergeStep super.Name depth)
    (info, merge)
  (depth, info, merge)

/-! The vtkWrapXML driver: vtkWrapXML_MergeHelper resolves one declared
base-class name (locally, else through the hierarchy index and a file
load), merges it, and recurses into its own bases;
vtkWrapXML_MergeSuperClasses drives the walk for a root class. -/

/-- FatalExit: a call to exit(code) after printing an optional diagnostic
to stderr.  An Except.error of this value models process termination — no
merge state is handed back. -/
structure FatalExit where
  exitCode : Nat
  diagnostic : Option String
deriving Repr, DecidableEq

/-- Modelled from the spec: the external collaborators consulted by
vtkWrapXML_MergeHelper, whose implementations (vtkParseHierarchy.c,
vtkParse_FindIncludeFile, fopen, vtkParse_ParseFile, vtkParse_ReadHints,
vtkParse_GetCommandLineOptions) are not part of the embedded sources.
hierarchyFileName is the optional command-line hierarchy file;
findEntry is the name-to-header lookup of the loaded hierarchy index
(section 4.4 step 3 of the spec); findIncludeFile is the include-path
search; fopenOk tells whether a located file can be opened; parseFile is
the declaration loader (none on parse failure); readHints is the optional
hint overlay applied to each freshly loaded tree. -/
structure Env where
  hierarchyFileName : Option String
  findEntry : String → Option String
  findIncludeFile : String → Option String
  fopenOk : String → Bool
  parseFile : String → Option NamespaceInfo
  readHints : Option (NamespaceInfo → NamespaceInfo)

/-- The class lookup loop of vtkWrapXML_MergeHelper: first class in the
namespace whose Name equals the requested name. -/
def findClass : List ClassInfo → String → Option ClassInfo
  | [], _ => none
  | c :: rest, name => if c.Name = name then some c else findClass rest name

/-- Outcome of applying the optional hint overlay to a freshly parsed
tree (vtkParse_ReadHints is re-run from the start of the hints file). -/
def applyHints (env : Env) (contents : NamespaceInfo) : NamespaceInfo :=
  match env.readHints with
  | some h => h contents
  | none => contents

mutual

/-- vtkWrapXML_MergeHelper: resolve classname in the current namespace; if
absent (and the namespace is non-empty) consult the hierarchy index — a
missing entry truncates silently, a located-but-unloadable header is a
fatal exit; on success merge the class and recurse into its declared
bases.  The fuel argument bounds the recursion depth (the C original
recurses without a guard). -/
def vtkWrapXML_MergeHelper (fuel : Nat) (env : Env) (data : NamespaceInfo)
    (classname : String) (info : MergeInfo) (merge : ClassInfo) :
    Except FatalExit (MergeInfo × ClassInfo) :=
  match fuel with
  | 0 => .ok (info, merge)
  | fuel + 1 =>
    match findClass data.Classes classname with
    | some cinfo =>
        let r := vtkParseMerge_Merge info merge cinfo
        mergeSupers fuel env data cinfo.SuperClasses r.2.1 r.2.2
    | none =>
        if data.Classes.length > 0 then
          match env.findEntry classname with
          | none => .ok (info, merge)
          | some header =>
            match env.findIncludeFile header with
            | none =>
                .error ⟨1, some ("Could not locate header file " ++ header)⟩
            | some filename =>
                if env.fopenOk filename then
                  match env.parseFile filename with
                  | none => .error ⟨1, none⟩
                  | some contents =>
                      let data2 := applyHints env contents
                      match findClass data2.Classes classname with
                      | some cinfo =>
                          let r := vtkParseMerge_Merge info merge cinfo
                          mergeSupers fuel env data2 cinfo.SuperClasses
                            r.2.1 r.2.2
                      | none => .ok (info, merge)
                else
                  .error ⟨1, some ("Could not open header file " ++ header)⟩
        else .ok (info, merge)
termination_by (fuel, 0)

/-- The recursion of vtkWrapXML_MergeHelper over a list of declared
superclass names, threading the merge state and propagating a fatal
exit. -/
def mergeSupers (fuel : Nat) (env : Env) (data : NamespaceInfo)
    (names : List String) (info : MergeInfo) (merge : ClassInfo) :
    Except FatalExit (MergeInfo × ClassInfo) :=
  match names with
  | [] => .ok (info, merge)
  | c :: rest =>
      match vtkWrapXML_MergeHelper fuel env data c info merge with
      | .ok (info, merge) => mergeSupers fuel env data rest info merge
      | .error e => .error e
termination_by (fuel, names.length + 1)

end

/-- vtkWrapXML_MergeSuperClasses: when no hierarchy file name was supplied
on the command line, no MergeInfo is created and nothing is merged (the C
function returns NULL); otherwise create the MergeInfo for the root class
and walk each declared base. -/
def vtkWrapXML_MergeSuperClasses (env : Env) (fuel : Nat)
    (data : NamespaceInfo) (classInfo : ClassInfo) :
    Except FatalExit (Option MergeInfo × ClassInfo) :=
  match env.hierarchyFileName with
  | none => .ok (none, classInfo)
  | some _ =>
      let info := vtkParseMerge_CreateMergeInfo classInfo
      match mergeSupers fuel env data classInfo.SuperClasses info classInfo with
      | .ok (info, merge) => .ok (some info, merge)
      | .error e => .error e

/-! Small list facts used throughout; proved here to keep the development
self-contained. -/

theorem getD_append_left {α : Type} (l1 l2 : List α) (j : Nat) (d : α)
    (h : j < l1.length) : (l1 ++ l2).getD j d = l1.getD j d := by
  induction l1 generalizing j with
  | nil => simp at h
  | cons a t ih =>
      cases j with
      | zero => rfl
      | succ j =>
          simp only [List.cons_append, List.getD_cons_succ]
          exact ih j (by simpa using Nat.lt_of_succ_lt_succ h)

theorem getD_set_ne {α : Type} (l : List α) (i j : Nat) (x : α) (d : α)
    (h : i ≠ j) : (l.set i x).getD j d = l.getD j d := by
  induction l generalizing i j with
  | nil => simp [List.set]
  | cons a t ih =>
      cases i with
      | zero =>
          cases j with
          | zero => exact absurd rfl h
          | succ j => simp [List.set]
      | succ i =>
          cases j with
          | zero => simp [List.set]
          | succ j =>
              simp only [List.set, List.getD_cons_succ]
              exact ih i j (fun hc => h (by rw [hc]))

theorem getD_set_eq {α : Type} (l : List α) (i : Nat) (x : α) (d : α)
    (h : i < l.length) : (l.set i x).getD i d = x := by
  induction l generalizing i with
  | nil => simp at h
  | cons a t ih =>
      cases i with
      | zero => rfl
      | succ i =>
          simp only [List.set, List.getD_cons_succ]
          exact ih i (by simpa using Nat.lt_of_succ_lt_succ h)

theorem mem_of_mem_set {α : Type} (l : List α) (i : Nat) (x a : α)
    (h : a ∈ l.set i x) : a ∈ l ∨ a = x := by
  induction l generalizing i with
  | nil => cases i <;> simp [List.set] at h
  | cons b t ih =>
      cases i with
      | zero =>
          rcases List.mem_cons.mp h with h1 | h1
          · exact Or.inr h1
          · exact Or.inl (List.mem_cons_of_mem _ h1)
      | succ i =>
          rcases List.mem_cons.mp h with h1 | h1
          · exact Or.inl (h1 ▸ List.mem_cons_self _ _)
          · rcases ih i h1 with h2 | h2
            · exact Or.inl (List.mem_cons_of_mem _ h2)
            · exact Or.inr h2

theorem set_of_length_le {α : Type} (l : List α) (i : Nat) (x : α)
    (h : l.length ≤ i) : l.set i x = l := by
  induction l generalizing i with
  | nil => rfl
  | cons a t ih =>
      cases i with
      | zero => simp at h
      | succ i =>
          simp only [List.set]
          rw [ih i (by simpa using Nat.le_of_succ_le_succ h)]

theorem any_congr {α : Type} (l : List α) (f g : α → Bool)
    (h : ∀ x ∈ l, f x = g x) : l.any f = l.any g := by
  induction l with
  | nil => rfl
  | cons a t ih =>
      simp only [List.any_cons]
      rw [h a (List.mem_cons_self _ _), ih (fun x hx => h x (List.mem_cons_of_mem _ hx))]

/-! Facts about the class-name scan and vtkParseMerge_PushClass. -/

theorem findClassIndex_eq_none (l : List String) (name : String)
    (h : name ∉ l) : findClassIndex l name = none := by
  induction l with
  | nil => rfl
  | cons c t ih =>
      simp only [findClassIndex]
      rw [if_neg, ih (fun hm => h (List.mem_cons_of_mem _ hm))]
      · rfl
      · exact fun hc => h (hc ▸ List.mem_cons_self _ _)

theorem findClassIndex_isSome (l : List String) (name : String)
    (h : name ∈ l) : ∃ i, findClassIndex l name = some i := by
  induction l with
  | nil => simp at h
  | cons c t ih =>
      by_cases hc : c = name
      · exact ⟨0, by simp [findClassIndex, hc]⟩
      · rcases List.mem_cons.mp h with h1 | h1
        · exact absurd h1.symm hc
        · rcases ih h1 with ⟨i, hi⟩
          exact ⟨i + 1, by simp [findClassIndex, hc, hi]⟩

theorem findClassIndex_getD (l : List String) (name : String) (i : Nat)
    (h : findClassIndex l name = some i) :
    i < l.length ∧ l.getD i "" = name := by
  induction l generalizing i with
  | nil => simp [findClassIndex] at h
  | cons c t ih =>
      simp only [findClassIndex] at h
      by_cases hc : c = name
      · rw [if_pos hc] at h
        cases h
        exact ⟨Nat.succ_pos _, hc⟩
      · rw [if_neg hc] at h
        cases ht : findClassIndex t name with
        | none => rw [ht] at h; simp at h
        | some j =>
            rw [ht] at h
            simp only [Option.map_some'] at h
            cases h
            rcases ih j ht with ⟨h1, h2⟩
            exact ⟨Nat.succ_lt_succ h1, h2⟩

theorem pushClass_mem (info : MergeInfo) (name : String)
    (h : name ∈ info.ClassNames) :
    (vtkParseMerge_PushClass info name).2 = info ∧
    (vtkParseMerge_PushClass info name).1 < info.ClassNames.length ∧
    info.ClassNames.getD (vtkParseMerge_PushClass info name).1 "" = name := by
  rcases findClassIndex_isSome info.ClassNames name h with ⟨i, hi⟩
  rcases findClassIndex_getD _ _ _ hi with ⟨h1, h2⟩
  unfold vtkParseMerge_PushClass
  rw [hi]
  exact ⟨rfl, h1, h2⟩

theorem pushClass_not_mem (info : MergeInfo) (name : String)
    (h : name ∉ info.ClassNames) :
    vtkParseMerge_PushClass info name =
      (info.ClassNames.length,
       { info with ClassNames := info.ClassNames ++ [name] }) := by
  simp [vtkParseMerge_PushClass, findClassIndex_eq_none _ _ h]

theorem pushClass_overrides (info : MergeInfo) (name : String) :
    (vtkParseMerge_PushClass info name).2.OverrideClasses =
      info.OverrideClasses := by
  unfold vtkParseMerge_PushClass
  cases findClassIndex info.ClassNames name <;> rfl

theorem pushClass_nodup (info : MergeInfo) (name : String)
    (h : info.ClassNames.Nodup) :
    (vtkParseMerge_PushClass info name).2.ClassNames.Nodup := by
  by_cases hm : name ∈ info.ClassNames
  · rw [(pushClass_mem info name hm).1]; exact h
  · rw [pushClass_not_mem info name hm]
    simpa [List.nodup_append] using ⟨h, hm⟩

theorem pushClass_names_mono (info : MergeInfo) (name : String) :
    ∃ tail, (vtkParseMerge_PushClass info name).2.ClassNames =
      info.ClassNames ++ tail := by
  by_cases hm : name ∈ info.ClassNames
  · exact ⟨[], by rw [(pushClass_mem info name hm).1]; simp⟩
  · exact ⟨[name], by rw [pushClass_not_mem info name hm]⟩

/-! Facts about vtkParseMerge_PushFunction and vtkParseMerge_PushOverride. -/

theorem pushFunction_eq (info : MergeInfo) (depth : Nat) :
    vtkParseMerge_PushFunction info depth =
      (info.OverrideClasses.length,
       { info with OverrideClasses := info.OverrideClasses ++ [[depth]] }) := rfl

theorem pushOverride_mem (info : MergeInfo) (i depth : Nat)
    (h : depth ∈ info.OverrideClasses.getD i []) :
    vtkParseMerge_PushOverride info i depth = (i, info) := by
  unfold vtkParseMerge_PushOverride
  rw [if_pos h]

theorem pushOverride_not_mem (info : MergeInfo) (i depth : Nat)
    (h : depth ∉ info.OverrideClasses.getD i []) :
    vtkParseMerge_PushOverride info i depth =
      ((info.OverrideClasses.getD i []).length,
       { info with OverrideClasses := info.OverrideClasses.set i (info.OverrideClasses.getD i [] ++ [depth]) }) := by
  unfold vtkParseMerge_PushOverride
  rw [if_neg h]

theorem pushOverride_length (info : MergeInfo) (i depth : Nat) :
    (vtkParseMerge_PushOverride info i depth).2.OverrideClasses.length =
      info.OverrideClasses.length := by
  by_cases h : depth ∈ info.OverrideClasses.getD i []
  · rw [pushOverride_mem info i depth h]
  · rw [pushOverride_not_mem info i depth h]; simp

theorem pushOverride_classnames (info : MergeInfo) (i depth : Nat) :
    (vtkParseMerge_PushOverride info i depth).2.ClassNames =
      info.ClassNames := by
  by_cases h : depth ∈ info.OverrideClasses.getD i []
  · rw [pushOverride_mem info i depth h]
  · rw [pushOverride_not_mem info i depth h]

theorem pushOverride_getD_ne (info : MergeInfo) (i depth j : Nat)
    (h : j ≠ i) :
    (vtkParseMerge_PushOverride info i depth).2.OverrideClasses.getD j [] =
      info.OverrideClasses.getD j [] := by
  by_cases hm : depth ∈ info.OverrideClasses.getD i []
  · rw [pushOverride_mem info i depth hm]
  · rw [pushOverride_not_mem info i depth hm]
    exact getD_set_ne _ _ _ _ _ (fun hc => h hc.symm)

theorem pushOverride_getD_eq (info : MergeInfo) (i depth : Nat)
    (hi : i < info.OverrideClasses.length) :
    (vtkParseMerge_PushOverride info i depth).2.OverrideClasses.getD i [] =
      (if depth ∈ info.OverrideClasses.getD i [] then
        info.OverrideClasses.getD i []
      else info.OverrideClasses.getD i [] ++ [depth]) := by
  by_cases hm : depth ∈ info.OverrideClasses.getD i []
  · rw [pushOverride_mem info i depth hm, if_pos hm]
  · rw [pushOverride_not_mem info i depth hm, if_neg hm]
    exact getD_set_eq _ _ _ _ hi

/-- Preservation of a per-chain predicate by vtkParseMerge_PushOverride:
any property of chains that survives appending a value not already present
survives the push. -/
theorem pushOverride_all_chains (P : List Nat → Prop)
    (hP : ∀ ch d, P ch → d ∉ ch → P (ch ++ [d]))
    (info : MergeInfo) (i depth : Nat)
    (h : ∀ ch ∈ info.OverrideClasses, P ch) :
    ∀ ch ∈ (vtkParseMerge_PushOverride info i depth).2.OverrideClasses,
      P ch := by
  by_cases hm : depth ∈ info.OverrideClasses.getD i []
  · rw [pushOverride_mem info i depth hm]; exact h
  · rw [pushOverride_not_mem info i depth hm]
    by_cases hi : i < info.OverrideClasses.length
    · intro ch hch
      rcases mem_of_mem_set _ _ _ _ hch with h1 | h1
      · exact h ch h1
      · subst h1
        refine hP _ _ (h _ ?_) hm
        rw [List.getD_eq_getElem _ _ hi]
        exact List.getElem_mem _
    · intro ch hch
      rw [set_of_length_le _ _ _ (Nat.le_of_not_lt hi)] at hch
      exact h ch hch

/-! Facts about one pass of the override-check loop (mergeMatchStep) and
about the whole loop (mergeInner). -/

theorem merge_function_name (f2 func : FunctionInfo) :
    (merge_function f2 func).Name = f2.Name := by
  unfold merge_function
  by_cases hv : func.IsVirtual <;>
    by_cases hc : func.Comment.isSome && f2.Comment.isNone <;>
      simp [hv, hc]

theorem mergeMatchStep_flag (fname : String) (func : FunctionInfo)
    (depth : Nat) (b : Bool) (info : MergeInfo) (mg : ClassInfo) (j : Nat) :
    (mergeMatchStep fname func depth (b, info, mg) j).1 =
      (b || ((mg.Functions.getD j default).Name == some fname)) := by
  simp only [mergeMatchStep]
  cases hn : (mg.Functions.getD j default).Name with
  | none => simp
  | some f2name =>
      dsimp only
      by_cases he : f2name = fname
      · subst he
        rw [if_pos rfl]
        split <;> simp
      · rw [if_neg he]
        simp [he]

theorem mergeMatchStep_self_nomatch (fname : String) (func : FunctionInfo)
    (depth : Nat) (b : Bool) (info : MergeInfo) (mg : ClassInfo) (j : Nat)
    (h : (mg.Functions.getD j default).Name ≠ some fname) :
    mergeMatchStep fname func depth (b, info, mg) j = (b, info, mg) := by
  simp only [mergeMatchStep]
  cases hn : (mg.Functions.getD j default).Name with
  | none => rfl
  | some f2name =>
      dsimp only
      rw [hn] at h
      have hne : f2name ≠ fname := fun he => h (by rw [he])
      rw [if_neg hne]

theorem mergeMatchStep_cases (fname : String) (func : FunctionInfo)
    (depth : Nat) (b : Bool) (info : MergeInfo) (mg : ClassInfo) (j : Nat) :
    mergeMatchStep fname func depth (b, info, mg) j = (b, info, mg) ∨
    (mergeMatchStep fname func depth (b, info, mg) j = (true, info, mg)) ∨
    (mergeMatchStep fname func depth (b, info, mg) j =
      (true, (vtkParseMerge_PushOverride info j depth).2,
       { mg with Functions := mg.Functions.set j (merge_function (mg.Functions.getD j default) func) })) := by
  simp only [mergeMatchStep]
  cases hn : (mg.Functions.getD j default).Name with
  | none => exact Or.inl rfl
  | some f2name =>
      dsimp only
      by_cases he : f2name = fname
      · subst he
        rw [if_pos rfl]
        split
        · exact Or.inr (Or.inr rfl)
        · exact Or.inr (Or.inl rfl)
      · rw [if_neg he]
        exact Or.inl rfl

theorem mergeMatchStep_sig (fname : String) (func : FunctionInfo)
    (depth : Nat) (b : Bool) (info : MergeInfo) (mg : ClassInfo) (j : Nat)
    (hname : (mg.Functions.getD j default).Name = some fname)
    (hsig : sigMatches (mg.Functions.getD j default) func = true) :
    mergeMatchStep fname func depth (b, info, mg) j =
      (true, (vtkParseMerge_PushOverride info j depth).2,
       { mg with Functions := mg.Functions.set j (merge_function (mg.Functions.getD j default) func) }) := by
  simp only [mergeMatchStep]
  rw [hname]
  dsimp only
  rw [if_pos rfl, if_pos hsig]

theorem mergeMatchStep_functions_length (fname : String)
    (func : FunctionInfo) (depth : Nat) (b : Bool) (info : MergeInfo)
    (mg : ClassInfo) (j : Nat) :
    (mergeMatchStep fname func depth (b, info, mg) j).2.2.Functions.length =
      mg.Functions.length := by
  rcases mergeMatchStep_cases fname func depth b info mg j with h | h | h <;>
    simp [h]

theorem mergeMatchStep_overrides_length (fname : String)
    (func : FunctionInfo) (depth : Nat) (b : Bool) (info : MergeInfo)
    (mg : ClassInfo) (j : Nat) :
    (mergeMatchStep fname func depth (b, info, mg) j).2.1.OverrideClasses.length =
      info.OverrideClasses.length := by
  rcases mergeMatchStep_cases fname func depth b info mg j with h | h | h <;>
    rw [h]
  exact pushOverride_length info j depth

theorem mergeMatchStep_classnames (fname : String)
    (func : FunctionInfo) (depth : Nat) (b : Bool) (info : MergeInfo)
    (mg : ClassInfo) (j : Nat) :
    (mergeMatchStep fname func depth (b, info, mg) j).2.1.ClassNames =
      info.ClassNames := by
  rcases mergeMatchStep_cases fname func depth b info mg j with h | h | h <;>
    rw [h]
  exact pushOverride_classnames info j depth

theorem mergeMatchStep_names (fname : String) (func : FunctionInfo)
    (depth : Nat) (b : Bool) (info : MergeInfo) (mg : ClassInfo) (j k : Nat) :
    ((mergeMatchStep fname func depth (b, info, mg) j).2.2.Functions.getD k default).Name =
      (mg.Functions.getD k default).Name := by
  rcases mergeMatchStep_cases fname func depth b info mg j with h | h | h <;>
    rw [h]
  by_cases hk : j = k
  · subst hk
    by_cases hj : j < mg.Functions.length
    · simp only
      rw [getD_set_eq _ _ _ _ hj, merge_function_name]
    · simp only
      rw [set_of_length_le _ _ _ (Nat.le_of_not_lt hj)]
  · simp only
    rw [getD_set_ne _ _ _ _ _ hk]

theorem mergeMatchStep_getD_ne (fname : String) (func : FunctionInfo)
    (depth : Nat) (b : Bool) (info : MergeInfo) (mg : ClassInfo) (j k : Nat)
    (h : j ≠ k) :
    (mergeMatchStep fname func depth (b, info, mg) j).2.2.Functions.getD k default =
        mg.Functions.getD k default ∧
    (mergeMatchStep fname func depth (b, info, mg) j).2.1.OverrideClasses.getD k [] =
        info.OverrideClasses.getD k [] := by
  rcases mergeMatchStep_cases fname func depth b info mg j with hc | hc | hc <;>
    rw [hc]
  · exact ⟨rfl, rfl⟩
  · exact ⟨rfl, rfl⟩
  · exact ⟨getD_set_ne _ _ _ _ _ h, pushOverride_getD_ne info j depth k (fun hk => h hk.symm)⟩


theorem mergeMatchStep_all_chains (P : List Nat → Prop)
    (hP : ∀ ch d, P ch → d ∉ ch → P (ch ++ [d]))
    (fname : String) (func : FunctionInfo) (depth : Nat) (b : Bool)
    (info : MergeInfo) (mg : ClassInfo) (j : Nat)
    (h : ∀ ch ∈ info.OverrideClasses, P ch) :
    ∀ ch ∈ (mergeMatchStep fname func depth (b, info, mg) j).2.1.OverrideClasses,
      P ch := by
  rcases mergeMatchStep_cases fname func depth b info mg j with hc | hc | hc <;>
    rw [hc]
  · exact h
  · exact h
  · exact pushOverride_all_chains P hP info j depth h



/-! Facts about the whole override-check loop (mergeInner), by induction on
the index list. -/

theorem mergeInner_functions_length (fname : String) (func : FunctionInfo)
    (depth : Nat) :
    ∀ (js : List Nat) (b : Bool) (info : MergeInfo) (mg : ClassInfo),
    (mergeInner fname func depth js (b, info, mg)).2.2.Functions.length =
      mg.Functions.length := by
  intro js
  induction js with
  | nil => intro b info mg; rfl
  | cons j js ih =>
      intro b info mg
      exact (ih _ _ _).trans
        (mergeMatchStep_functions_length fname func depth b info mg j)

theorem mergeInner_overrides_length (fname : String) (func : FunctionInfo)
    (depth : Nat) :
    ∀ (js : List Nat) (b : Bool) (info : MergeInfo) (mg : ClassInfo),
    (mergeInner fname func depth js (b, info, mg)).2.1.OverrideClasses.length =
      info.OverrideClasses.length := by
  intro js
  induction js with
  | nil => intro b info mg; rfl
  | cons j js ih =>
      intro b info mg
      exact (ih _ _ _).trans
        (mergeMatchStep_overrides_length fname func depth b info mg j)

theorem mergeInner_classnames (fname : String) (func : FunctionInfo)
    (depth : Nat) :
    ∀ (js : List Nat) (b : Bool) (info : MergeInfo) (mg : ClassInfo),
    (mergeInner fname func depth js (b, info, mg)).2.1.ClassNames =
      info.ClassNames := by
  intro js
  induction js with
  | nil => intro b info mg; rfl
  | cons j js ih =>
      intro b info mg
      exact (ih _ _ _).trans
        (mergeMatchStep_classnames fname func depth b info mg j)

theorem mergeInner_names (fname : String) (func : FunctionInfo)
    (depth : Nat) :
    ∀ (js : List Nat) (b : Bool) (info : MergeInfo) (mg : ClassInfo) (k : Nat),
    ((mergeInner fname func depth js (b, info, mg)).2.2.Functions.getD k default).Name =
      (mg.Functions.getD k default).Name := by
  intro js
  induction js with
  | nil => intro b info mg k; rfl
  | cons j js ih =>
      intro b info mg k
      exact (ih _ _ _ k).trans
        (mergeMatchStep_names fname func depth b info mg j k)

theorem mergeInner_all_chains (P : List Nat → Prop)
    (hP : ∀ ch d, P ch → d ∉ ch → P (ch ++ [d]))
    (fname : String) (func : FunctionInfo) (depth : Nat) :
    ∀ (js : List Nat) (b : Bool) (info : MergeInfo) (mg : ClassInfo),
    (∀ ch ∈ info.OverrideClasses, P ch) →
    ∀ ch ∈ (mergeInner fname func depth js (b, info, mg)).2.1.OverrideClasses,
      P ch := by
  intro js
  induction js with
  | nil => intro b info mg h; exact h
  | cons j js ih =>
      intro b info mg h
      exact ih _ _ _
        (mergeMatchStep_all_chains P hP fname func depth b info mg j h)

theorem mergeInner_untouched (fname : String) (func : FunctionInfo)
    (depth : Nat) :
    ∀ (js : List Nat) (b : Bool) (info : MergeInfo) (mg : ClassInfo) (k : Nat),
    (mg.Functions.getD k default).Name ≠ some fname →
    (mergeInner fname func depth js (b, info, mg)).2.2.Functions.getD k default =
        mg.Functions.getD k default ∧
    (mergeInner fname func depth js (b, info, mg)).2.1.OverrideClasses.getD k [] =
        info.OverrideClasses.getD k [] := by
  intro js
  induction js with
  | nil => intro b info mg k h; exact ⟨rfl, rfl⟩
  | cons j js ih =>
      intro b info mg k h
      by_cases hj : j = k
      · subst hj
        have hid := mergeMatchStep_self_nomatch fname func depth b info mg j h
        show (mergeInner fname func depth js
            (mergeMatchStep fname func depth (b, info, mg) j)).2.2.Functions.getD j default = _ ∧
          (mergeInner fname func depth js
            (mergeMatchStep fname func depth (b, info, mg) j)).2.1.OverrideClasses.getD j [] = _
        rw [hid]
        exact ih b info mg j h
      · have hpres := mergeMatchStep_getD_ne fname func depth b info mg j k hj
        have hname2 : ((mergeMatchStep fname func depth (b, info, mg) j).2.2.Functions.getD k default).Name ≠ some fname := by
          rw [hpres.1]; exact h
        have h3 := ih (mergeMatchStep fname func depth (b, info, mg) j).1
          (mergeMatchStep fname func depth (b, info, mg) j).2.1
          (mergeMatchStep fname func depth (b, info, mg) j).2.2 k hname2
        exact ⟨h3.1.trans hpres.1, h3.2.trans hpres.2⟩

theorem mergeInner_flag (fname : String) (func : FunctionInfo)
    (depth : Nat) :
    ∀ (js : List Nat) (b : Bool) (info : MergeInfo) (mg : ClassInfo),
    (mergeInner fname func depth js (b, info, mg)).1 =
      (b || js.any (fun l => (mg.Functions.getD l default).Name == some fname)) := by
  intro js
  induction js with
  | nil => intro b info mg; simp [mergeInner]
  | cons j js ih =>
      intro b info mg
      have hs1 := mergeMatchStep_flag fname func depth b info mg j
      have hcong : js.any (fun l =>
          (((mergeMatchStep fname func depth (b, info, mg) j).2.2.Functions.getD l default).Name == some fname)) =
          js.any (fun l => ((mg.Functions.getD l default).Name == some fname)) :=
        any_congr js _ _ (fun l _ => by
          rw [mergeMatchStep_names fname func depth b info mg j l])
      calc (mergeInner fname func depth (j :: js) (b, info, mg)).1
          = (mergeInner fname func depth js
              ((mergeMatchStep fname func depth (b, info, mg) j).1,
               (mergeMatchStep fname func depth (b, info, mg) j).2.1,
               (mergeMatchStep fname func depth (b, info, mg) j).2.2)).1 := rfl
        _ = ((mergeMatchStep fname func depth (b, info, mg) j).1 ||
              js.any (fun l =>
                (((mergeMatchStep fname func depth (b, info, mg) j).2.2.Functions.getD l default).Name == some fname))) :=
            ih _ _ _
        _ = ((b || ((mg.Functions.getD j default).Name == some fname)) ||
              js.any (fun l => ((mg.Functions.getD l default).Name == some fname))) := by
            rw [hs1, hcong]
        _ = (b || (j :: js).any (fun l => ((mg.Functions.getD l default).Name == some fname))) := by
            rw [List.any_cons, Bool.or_assoc]

theorem mergeInner_nomatch_id (fname : String) (func : FunctionInfo)
    (depth : Nat) :
    ∀ (js : List Nat) (b : Bool) (info : MergeInfo) (mg : ClassInfo),
    (∀ l ∈ js, (mg.Functions.getD l default).Name ≠ some fname) →
    mergeInner fname func depth js (b, info, mg) = (b, info, mg) := by
  intro js
  induction js with
  | nil => intro b info mg _; rfl
  | cons j js ih =>
      intro b info mg h
      have hid := mergeMatchStep_self_nomatch fname func depth b info mg j
        (h j (List.mem_cons_self _ _))
      show mergeInner fname func depth js
        (mergeMatchStep fname func depth (b, info, mg) j) = (b, info, mg)
      rw [hid]
      exact ih b info mg (fun l hl => h l (List.mem_cons_of_mem _ hl))

theorem mergeInner_unique_sig (fname : String) (func : FunctionInfo)
    (depth : Nat) (k : Nat) :
    ∀ (js : List Nat) (b : Bool) (info : MergeInfo) (mg : ClassInfo),
    (mg.Functions.getD k default).Name = some fname →
    sigMatches (mg.Functions.getD k default) func = true →
    (∀ l ∈ js, l ≠ k → (mg.Functions.getD l default).Name ≠ some fname) →
    js.count k ≤ 1 → k ∈ js →
    mergeInner fname func depth js (b, info, mg) =
      (true, (vtkParseMerge_PushOverride info k depth).2,
       { mg with Functions := mg.Functions.set k (merge_function (mg.Functions.getD k default) func) }) := by
  intro js
  induction js with
  | nil => intro b info mg _ _ _ _ hmem; cases hmem
  | cons j js ih =>
      intro b info mg hk hsig hothers hcount hmem
      by_cases hj : j = k
      · subst hj
        have hstep := mergeMatchStep_sig fname func depth b info mg j hk hsig
        have hnotin : j ∉ js := by
          intro hin
          have : 2 ≤ (j :: js).count j := by
            rw [List.count_cons_self]
            exact Nat.succ_le_succ (List.count_pos_iff.mpr hin)
          exact absurd (Nat.le_trans this hcount) (by decide)
        show mergeInner fname func depth js
          (mergeMatchStep fname func depth (b, info, mg) j) = _
        rw [hstep]
        refine mergeInner_nomatch_id fname func depth js _ _ _ ?_
        intro l hl
        have hlj : l ≠ j := fun he => hnotin (he ▸ hl)
        rw [getD_set_ne _ _ _ _ _ (fun he => hlj he.symm)]
        exact hothers l (List.mem_cons_of_mem _ hl) hlj
      · have hjname : (mg.Functions.getD j default).Name ≠ some fname :=
          hothers j (List.mem_cons_self _ _) hj
        have hid := mergeMatchStep_self_nomatch fname func depth b info mg j hjname
        show mergeInner fname func depth js
          (mergeMatchStep fname func depth (b, info, mg) j) = _
        rw [hid]
        refine ih b info mg hk hsig
          (fun l hl => hothers l (List.mem_cons_of_mem _ hl)) ?_ ?_
        · have : (j :: js).count k = js.count k := List.count_cons_of_ne (fun he => hj he.symm) _
          exact this ▸ hcount
        · rcases List.mem_cons.mp hmem with he | he
          · exact absurd he.symm hj
          · exact he

/-! Facts about the constructor/destructor test and about one pass of the
outer merge loop (mergeStep). -/

theorem string_ext {a b : String} (h : a.data = b.data) : a = b := by
  cases a; cases b; exact congrArg String.mk h

theorem isCtorDtorOf_self (superName : String) :
    isCtorDtorOf superName superName = true := by
  simp [isCtorDtorOf]

theorem isCtorDtorOf_tilde (superName : String) :
    isCtorDtorOf ("~" ++ superName) superName = true := by
  unfold isCtorDtorOf
  have hd : ("~" ++ superName).data = '~' :: superName.data := rfl
  rw [hd]
  simp

theorem isCtorDtorOf_eq_false (fname superName : String)
    (h1 : fname ≠ superName) (h2 : fname ≠ "~" ++ superName) :
    isCtorDtorOf fname superName = false := by
  unfold isCtorDtorOf
  rw [Bool.or_eq_false_iff]
  constructor
  · exact beq_eq_false_iff_ne.mpr h1
  · cases hd : fname.data with
    | nil => rfl
    | cons c rest =>
        by_cases hc : c = '~'
        · by_cases hr : rest = superName.data
          · exfalso
            apply h2
            apply string_ext
            rw [hd, hc, hr]
            rfl
          · simp [hr]
        · simp [hc]

theorem mergeStep_skip (superName : String) (depth : Nat)
    (info : MergeInfo) (mg : ClassInfo) (func : FunctionInfo)
    (h : func.Name = none ∨ func.Name = some superName ∨
         func.Name = some ("~" ++ superName)) :
    mergeStep superName depth (info, mg) func = (info, mg) := by
  simp only [mergeStep]
  rcases h with h | h | h
  · rw [h]
  · rw [h]
    dsimp only
    rw [if_pos (isCtorDtorOf_self superName)]
  · rw [h]
    dsimp only
    rw [if_pos (isCtorDtorOf_tilde superName)]

theorem mem_getD {α : Type} [Inhabited α] (l : List α) (a : α)
    (h : a ∈ l) : ∃ k, k < l.length ∧ l.getD k default = a := by
  induction l with
  | nil => simp at h
  | cons b t ih =>
      rcases List.mem_cons.mp h with h1 | h1
      · exact ⟨0, Nat.succ_pos _, h1.symm⟩
      · rcases ih h1 with ⟨k, hk, hv⟩
        exact ⟨k + 1, Nat.succ_lt_succ hk, hv⟩

theorem getD_mem {α : Type} [Inhabited α] (l : List α) (k : Nat)
    (h : k < l.length) : l.getD k default ∈ l := by
  rw [List.getD_eq_getElem _ _ h]
  exact List.getElem_mem _

theorem range_any_of_getD {α : Type} [Inhabited α] (l : List α)
    (p : α → Bool) (k : Nat) (hk : k < l.length)
    (h : p (l.getD k default) = true) :
    (List.range l.length).any (fun j => p (l.getD j default)) = true :=
  List.any_eq_true.mpr ⟨k, List.mem_range.mpr hk, h⟩

theorem mergeStep_fresh (superName : String) (depth : Nat)
    (info : MergeInfo) (mg : ClassInfo) (func : FunctionInfo) (fname : String)
    (hname : func.Name = some fname)
    (hnc : isCtorDtorOf fname superName = false)
    (hfresh : ∀ f ∈ mg.Functions, f.Name ≠ some fname) :
    mergeStep superName depth (info, mg) func =
      ((vtkParseMerge_PushFunction info depth).2,
       { mg with Functions := mg.Functions ++ [copy_function func] }) := by
  simp only [mergeStep]
  rw [hname]
  dsimp only
  rw [if_neg (by rw [hnc]; exact Bool.false_ne_true)]
  have hid := mergeInner_nomatch_id fname func depth
    (List.range mg.Functions.length) false info mg
    (fun l hl => by
      by_cases hll : l < mg.Functions.length
      · exact hfresh _ (getD_mem mg.Functions l hll)
      · rw [List.getD_eq_default _ _ (Nat.le_of_not_lt hll)]
        simp)
  rw [hid]
  simp

theorem mergeStep_namehit (superName : String) (depth : Nat)
    (info : MergeInfo) (mg : ClassInfo) (func : FunctionInfo) (fname : String)
    (hname : func.Name = some fname)
    (hhit : ∃ f ∈ mg.Functions, f.Name = some fname) :
    (mergeStep superName depth (info, mg) func).2.Functions.length =
        mg.Functions.length ∧
    (mergeStep superName depth (info, mg) func).1.OverrideClasses.length =
        info.OverrideClasses.length := by
  simp only [mergeStep]
  rw [hname]
  dsimp only
  by_cases hcd : isCtorDtorOf fname superName
  · rw [if_pos hcd]
    exact ⟨rfl, rfl⟩
  · rw [if_neg hcd]
    rcases hhit with ⟨f, hfmem, hfname⟩
    rcases mem_getD mg.Functions f hfmem with ⟨k, hk, hv⟩
    have hflag := mergeInner_flag fname func depth
      (List.range mg.Functions.length) false info mg
    have hany : (List.range mg.Functions.length).any
        (fun l => ((mg.Functions.getD l default).Name == some fname)) = true :=
      range_any_of_getD mg.Functions (fun g => (g.Name == some fname)) k hk
        (by simp only [hv, hfname, beq_self_eq_true])
    rw [hany] at hflag
    simp only [Bool.false_or] at hflag
    rw [if_pos hflag]
    exact ⟨mergeInner_functions_length fname func depth _ _ _ _,
           mergeInner_overrides_length fname func depth _ _ _ _⟩

theorem mergeStep_classnames (superName : String) (depth : Nat)
    (info : MergeInfo) (mg : ClassInfo) (func : FunctionInfo) :
    (mergeStep superName depth (info, mg) func).1.ClassNames =
      info.ClassNames := by
  simp only [mergeStep]
  cases hn : func.Name with
  | none => rfl
  | some fname =>
      dsimp only
      by_cases hcd : isCtorDtorOf fname superName
      · rw [if_pos hcd]
      · rw [if_neg hcd]
        split
        · exact mergeInner_classnames fname func depth _ _ _ _
        · exact mergeInner_classnames fname func depth _ _ _ _

theorem mergeStep_lockstep (superName : String) (depth : Nat)
    (info : MergeInfo) (mg : ClassInfo) (func : FunctionInfo)
    (h : info.OverrideClasses.length = mg.Functions.length) :
    (mergeStep superName depth (info, mg) func).1.OverrideClasses.length =
      (mergeStep superName depth (info, mg) func).2.Functions.length := by
  simp only [mergeStep]
  cases hn : func.Name with
  | none => exact h
  | some fname =>
      dsimp only
      by_cases hcd : isCtorDtorOf fname superName
      · rw [if_pos hcd]; exact h
      · rw [if_neg hcd]
        split
        · rw [mergeInner_overrides_length fname func depth _ _ _ _,
              mergeInner_functions_length fname func depth _ _ _ _]
          exact h
        · show ((vtkParseMerge_PushFunction _ depth).2.OverrideClasses.length = _)
          simp only [vtkParseMerge_PushFunction, List.length_append,
            List.length_singleton]
          rw [mergeInner_overrides_length fname func depth _ _ _ _,
              mergeInner_functions_length fname func depth _ _ _ _]
          rw [h]

theorem mergeStep_all_chains (P : List Nat → Prop)
    (hP : ∀ ch d, P ch → d ∉ ch → P (ch ++ [d]))
    (hP1 : ∀ d, P [d])
    (superName : String) (depth : Nat)
    (info : MergeInfo) (mg : ClassInfo) (func : FunctionInfo)
    (h : ∀ ch ∈ info.OverrideClasses, P ch) :
    ∀ ch ∈ (mergeStep superName depth (info, mg) func).1.OverrideClasses,
      P ch := by
  simp only [mergeStep]
  cases hn : func.Name with
  | none => exact h
  | some fname =>
      dsimp only
      by_cases hcd : isCtorDtorOf fname superName
      · rw [if_pos hcd]; exact h
      · rw [if_neg hcd]
        split
        · exact mergeInner_all_chains P hP fname func depth _ _ _ _ h
        · intro ch hch
          rcases List.mem_append.mp hch with h1 | h1
          · exact mergeInner_all_chains P hP fname func depth _ _ _ _ h ch h1
          · rw [List.mem_singleton.mp h1]
            exact hP1 depth

theorem mergeStep_functions_mono (superName : String) (depth : Nat)
    (info : MergeInfo) (mg : ClassInfo) (func : FunctionInfo) :
    mg.Functions.length ≤
      (mergeStep superName depth (info, mg) func).2.Functions.length := by
  simp only [mergeStep]
  cases hn : func.Name with
  | none => exact Nat.le_refl _
  | some fname =>
      dsimp only
      by_cases hcd : isCtorDtorOf fname superName
      · rw [if_pos hcd]
      · rw [if_neg hcd]
        split
        · rw [mergeInner_functions_length fname func depth _ _ _ _]
        · simp only [List.length_append, List.length_singleton]
          rw [mergeInner_functions_length fname func depth _ _ _ _]
          exact Nat.le_succ _

theorem mergeStep_overrides_mono (superName : String) (depth : Nat)
    (info : MergeInfo) (mg : ClassInfo) (func : FunctionInfo) :
    info.OverrideClasses.length ≤
      (mergeStep superName depth (info, mg) func).1.OverrideClasses.length := by
  simp only [mergeStep]
  cases hn : func.Name with
  | none => exact Nat.le_refl _
  | some fname =>
      dsimp only
      by_cases hcd : isCtorDtorOf fname superName
      · rw [if_pos hcd]
      · rw [if_neg hcd]
        split
        · rw [mergeInner_overrides_length fname func depth _ _ _ _]
        · show info.OverrideClasses.length ≤
            (vtkParseMerge_PushFunction _ depth).2.OverrideClasses.length
          simp only [vtkParseMerge_PushFunction, List.length_append,
            List.length_singleton]
          rw [mergeInner_overrides_length fname func depth _ _ _ _]
          exact Nat.le_succ _

theorem mergeStep_untouched (superName : String) (depth : Nat)
    (info : MergeInfo) (mg : ClassInfo) (func : FunctionInfo) (k : Nat)
    (nm : String)
    (hk : k < mg.Functions.length)
    (hkc : k < info.OverrideClasses.length)
    (hnm : (mg.Functions.getD k default).Name = some nm)
    (hne : func.Name ≠ some nm) :
    (mergeStep superName depth (info, mg) func).2.Functions.getD k default =
        mg.Functions.getD k default ∧
    (mergeStep superName depth (info, mg) func).1.OverrideClasses.getD k [] =
        info.OverrideClasses.getD k [] := by
  simp only [mergeStep]
  cases hn : func.Name with
  | none => exact ⟨rfl, rfl⟩
  | some fname =>
      dsimp only
      have hfname_ne : (mg.Functions.getD k default).Name ≠ some fname := by
        rw [hnm]
        intro hcontra
        apply hne
        rw [hn, ← Option.some_inj.mp hcontra]
      by_cases hcd : isCtorDtorOf fname superName
      · rw [if_pos hcd]; exact ⟨rfl, rfl⟩
      · rw [if_neg hcd]
        have hu := mergeInner_untouched fname func depth
          (List.range mg.Functions.length) false info mg k hfname_ne
        split
        · exact hu
        · constructor
          · have hlen : k < (mergeInner fname func depth
                (List.range mg.Functions.length) (false, info, mg)).2.2.Functions.length := by
              rw [mergeInner_functions_length fname func depth _ _ _ _]
              exact hk
            rw [getD_append_left _ _ _ _ hlen]
            exact hu.1
          · show ((vtkParseMerge_PushFunction _ depth).2.OverrideClasses.getD k []) = _
            simp only [vtkParseMerge_PushFunction]
            have hlen : k < (mergeInner fname func depth
                (List.range mg.Functions.length) (false, info, mg)).2.1.OverrideClasses.length := by
              rw [mergeInner_overrides_length fname func depth _ _ _ _]
              exact hkc
            rw [getD_append_left _ _ _ _ hlen]
            exact hu.2

/-! Facts about the outer loop of vtkParseMerge_Merge (fold of mergeStep
over the super class methods) and about vtkParseMerge_Merge itself. -/

theorem mergeFold_classnames (superName : String) (depth : Nat) :
    ∀ (fs : List FunctionInfo) (info : MergeInfo) (mg : ClassInfo),
    (List.foldl (mergeStep superName depth) (info, mg) fs).1.ClassNames =
      info.ClassNames := by
  intro fs
  induction fs with
  | nil => intro info mg; rfl
  | cons f fs ih =>
      intro info mg
      exact (ih _ _).trans (mergeStep_classnames superName depth info mg f)

theorem mergeFold_lockstep (superName : String) (depth : Nat) :
    ∀ (fs : List FunctionInfo) (info : MergeInfo) (mg : ClassInfo),
    info.OverrideClasses.length = mg.Functions.length →
    (List.foldl (mergeStep superName depth) (info, mg) fs).1.OverrideClasses.length =
      (List.foldl (mergeStep superName depth) (info, mg) fs).2.Functions.length := by
  intro fs
  induction fs with
  | nil => intro info mg h; exact h
  | cons f fs ih =>
      intro info mg h
      exact ih _ _ (mergeStep_lockstep superName depth info mg f h)

theorem mergeFold_all_chains (P : List Nat → Prop)
    (hP : ∀ ch d, P ch → d ∉ ch → P (ch ++ [d]))
    (hP1 : ∀ d, P [d])
    (superName : String) (depth : Nat) :
    ∀ (fs : List FunctionInfo) (info : MergeInfo) (mg : ClassInfo),
    (∀ ch ∈ info.OverrideClasses, P ch) →
    ∀ ch ∈ (List.foldl (mergeStep superName depth) (info, mg) fs).1.OverrideClasses,
      P ch := by
  intro fs
  induction fs with
  | nil => intro info mg h; exact h
  | cons f fs ih =>
      intro info mg h
      exact ih _ _ (mergeStep_all_chains P hP hP1 superName depth info mg f h)

theorem mergeFold_functions_mono (superName : String) (depth : Nat) :
    ∀ (fs : List FunctionInfo) (info : MergeInfo) (mg : ClassInfo),
    mg.Functions.length ≤
      (List.foldl (mergeStep superName depth) (info, mg) fs).2.Functions.length := by
  intro fs
  induction fs with
  | nil => intro info mg; exact Nat.le_refl _
  | cons f fs ih =>
      intro info mg
      exact Nat.le_trans (mergeStep_functions_mono superName depth info mg f)
        (ih _ _)

theorem mergeFold_overrides_mono (superName : String) (depth : Nat) :
    ∀ (fs : List FunctionInfo) (info : MergeInfo) (mg : ClassInfo),
    info.OverrideClasses.length ≤
      (List.foldl (mergeStep superName depth) (info, mg) fs).1.OverrideClasses.length := by
  intro fs
  induction fs with
  | nil => intro info mg; exact Nat.le_refl _
  | cons f fs ih =>
      intro info mg
      exact Nat.le_trans (mergeStep_overrides_mono superName depth info mg f)
        (ih _ _)

theorem mergeFold_untouched (superName : String) (depth : Nat) :
    ∀ (fs : List FunctionInfo) (info : MergeInfo) (mg : ClassInfo)
      (k : Nat) (nm : String),
    k < mg.Functions.length →
    k < info.OverrideClasses.length →
    (mg.Functions.getD k default).Name = some nm →
    (∀ f ∈ fs, f.Name ≠ some nm) →
    (List.foldl (mergeStep superName depth) (info, mg) fs).2.Functions.getD k default =
        mg.Functions.getD k default ∧
    (List.foldl (mergeStep superName depth) (info, mg) fs).1.OverrideClasses.getD k [] =
        info.OverrideClasses.getD k [] := by
  intro fs
  induction fs with
  | nil => intro info mg k nm _ _ _ _; exact ⟨rfl, rfl⟩
  | cons f fs ih =>
      intro info mg k nm hk hkc hnm hne
      have hstep := mergeStep_untouched superName depth info mg f k nm hk hkc
        hnm (hne f (List.mem_cons_self _ _))
      have hk2 : k < (mergeStep superName depth (info, mg) f).2.Functions.length :=
        Nat.lt_of_lt_of_le hk (mergeStep_functions_mono superName depth info mg f)
      have hkc2 : k < (mergeStep superName depth (info, mg) f).1.OverrideClasses.length :=
        Nat.lt_of_lt_of_le hkc (mergeStep_overrides_mono superName depth info mg f)
      have hnm2 : ((mergeStep superName depth (info, mg) f).2.Functions.getD k default).Name = some nm := by
        rw [hstep.1]; exact hnm
      have h3 := ih (mergeStep superName depth (info, mg) f).1
        (mergeStep superName depth (info, mg) f).2 k nm hk2 hkc2 hnm2
        (fun g hg => hne g (List.mem_cons_of_mem _ hg))
      exact ⟨h3.1.trans hstep.1, h3.2.trans hstep.2⟩

theorem merge_classnames (info : MergeInfo) (mg super : ClassInfo) :
    (vtkParseMerge_Merge info mg super).2.1.ClassNames =
      (vtkParseMerge_PushClass info super.Name).2.ClassNames := by
  unfold vtkParseMerge_Merge
  exact mergeFold_classnames super.Name _ super.Functions _ mg

theorem merge_nodup_classnames (info : MergeInfo) (mg super : ClassInfo)
    (h : info.ClassNames.Nodup) :
    (vtkParseMerge_Merge info mg super).2.1.ClassNames.Nodup := by
  rw [merge_classnames]
  exact pushClass_nodup info super.Name h

theorem merge_all_chains (P : List Nat → Prop)
    (hP : ∀ ch d, P ch → d ∉ ch → P (ch ++ [d]))
    (hP1 : ∀ d, P [d])
    (info : MergeInfo) (mg super : ClassInfo)
    (h : ∀ ch ∈ info.OverrideClasses, P ch) :
    ∀ ch ∈ (vtkParseMerge_Merge info mg super).2.1.OverrideClasses, P ch := by
  unfold vtkParseMerge_Merge
  refine mergeFold_all_chains P hP hP1 super.Name _ super.Functions _ mg ?_
  rw [pushClass_overrides]
  exact h

theorem merge_lockstep (info : MergeInfo) (mg super : ClassInfo)
    (h : info.OverrideClasses.length = mg.Functions.length) :
    (vtkParseMerge_Merge info mg super).2.1.OverrideClasses.length =
      (vtkParseMerge_Merge info mg super).2.2.Functions.length := by
  unfold vtkParseMerge_Merge
  refine mergeFold_lockstep super.Name _ super.Functions _ mg ?_
  rw [pushClass_overrides]
  exact h

/-! Facts about vtkParseMerge_CreateMergeInfo. -/

theorem createFold_overrides :
    ∀ (fs : List FunctionInfo) (info : MergeInfo),
    (List.foldl (fun i (_ : FunctionInfo) => (vtkParseMerge_PushFunction i 0).2) info fs).OverrideClasses =
      info.OverrideClasses ++ fs.map (fun _ => ([0] : List Nat)) := by
  intro fs
  induction fs with
  | nil => intro info; simp
  | cons f fs ih =>
      intro info
      simp only [List.foldl_cons]
      rw [ih]
      simp [vtkParseMerge_PushFunction]

theorem createFold_classnames :
    ∀ (fs : List FunctionInfo) (info : MergeInfo),
    (List.foldl (fun i (_ : FunctionInfo) => (vtkParseMerge_PushFunction i 0).2) info fs).ClassNames =
      info.ClassNames := by
  intro fs
  induction fs with
  | nil => intro info; rfl
  | cons f fs ih =>
      intro info
      simp only [List.foldl_cons]
      rw [ih]
      rfl

theorem createMergeInfo_spec (c : ClassInfo) :
    (vtkParseMerge_CreateMergeInfo c).ClassNames = [c.Name] ∧
    (vtkParseMerge_CreateMergeInfo c).OverrideClasses =
      c.Functions.map (fun _ => ([0] : List Nat)) := by
  unfold vtkParseMerge_CreateMergeInfo
  constructor
  · rw [createFold_classnames]
    rw [pushClass_not_mem _ _ (by simp)]
    simp
  · rw [createFold_overrides]
    rw [pushClass_not_mem _ _ (by simp)]
    simp

theorem merge_function_isVirtual (a b : FunctionInfo) :
    (merge_function a b).IsVirtual = (a.IsVirtual || b.IsVirtual) := by
  unfold merge_function
  by_cases hv : b.IsVirtual <;>
    by_cases hc : b.Comment.isSome && a.Comment.isNone <;>
      simp [hv, hc]

theorem merge_function_comment (a b : FunctionInfo) :
    (merge_function a b).Comment =
      (if a.Comment.isNone then b.Comment else a.Comment) := by
  unfold merge_function
  by_cases hv : b.IsVirtual <;>
    cases ha : a.Comment <;> cases hb : b.Comment <;> simp [hv, ha, hb]

theorem findClassIndex_append_self (l : List String) (name : String)
    (h : name ∉ l) :
    findClassIndex (l ++ [name]) name = some l.length := by
  induction l with
  | nil => simp [findClassIndex]
  | cons c t ih =>
      have hc : c ≠ name := fun he => h (he ▸ List.mem_cons_self _ _)
      have ht : name ∉ t := fun hm => h (List.mem_cons_of_mem _ hm)
      simp [findClassIndex, hc, ih ht]

theorem pushClass_stable (info : MergeInfo) (name : String) :
    (vtkParseMerge_PushClass (vtkParseMerge_PushClass info name).2 name).1 =
      (vtkParseMerge_PushClass info name).1 := by
  by_cases hm : name ∈ info.ClassNames
  · rw [(pushClass_mem info name hm).1]
  · rw [pushClass_not_mem info name hm]
    show (vtkParseMerge_PushClass
      { info with ClassNames := info.ClassNames ++ [name] } name).1 = _
    unfold vtkParseMerge_PushClass
    rw [show ({ info with ClassNames := info.ClassNames ++ [name] } : MergeInfo).ClassNames = info.ClassNames ++ [name] from rfl,
        findClassIndex_append_self info.ClassNames name hm]

/-! Concrete inputs used by counterexamples and witnesses.  Argument type
codes are abstract integers; 1 and 2 stand for two distinct codes such as
int and double. -/

/-- Convenience builder for a concrete method declaration. -/
def mkMethod (name : String) (args : List Nat) (cmt : Option String)
    (virt : Bool) : FunctionInfo :=
  { Name := some name, NumberOfArguments := args.length, ArgTypes := args,
    ArgClasses := [], ReturnClass := none, Comment := cmt, Signature := none,
    IsVirtual := virt }

/-- Root class B declaring Foo(double). -/
def classB_overload : ClassInfo :=
  { Name := "B", SuperClasses := ["A"],
    Functions := [mkMethod "Foo" [2] none false] }

/-- Ancestor class A declaring Foo(int). -/
def classA_overload : ClassInfo :=
  { Name := "A", SuperClasses := [],
    Functions := [mkMethod "Foo" [1] none false] }

/-- Claim C1 (counterexample): with the root declaring Foo(double) and the
ancestor declaring Foo(int), the merge does NOT yield two flattened entries
for Foo: the match flag is set on the name match alone, so the ancestor
overload is dropped and exactly one entry remains. -/
theorem claim_C1_cx :
    ¬((vtkParseMerge_Merge (vtkParseMerge_CreateMergeInfo classB_overload)
        classB_overload classA_overload).2.2.Functions.length = 2) ∧
    (vtkParseMerge_Merge (vtkParseMerge_CreateMergeInfo classB_overload)
        classB_overload classA_overload).2.2.Functions.length = 1 ∧
    (vtkParseMerge_Merge (vtkParseMerge_CreateMergeInfo classB_overload)
        classB_overload classA_overload).2.2.Functions =
      classB_overload.Functions := by
  refine ⟨by decide, by decide, by decide⟩

/-- Claim C1 (amended): during a merge, an ancestor method whose name
matches NO existing flattened entry is deep-copied and appended with a
fresh single-element override chain; an ancestor method whose name matches
an existing entry — even with a different signature — is never appended
(the flattened list and the chain count stay the same size), so an
unmatched overload such as Foo(int) under a root Foo(double) is dropped
rather than added as a second entry. -/
theorem claim_C1 (superName : String) (depth : Nat) (info : MergeInfo)
    (mg : ClassInfo) (func : FunctionInfo) (fname : String)
    (hname : func.Name = some fname)
    (hnc : isCtorDtorOf fname superName = false) :
    ((∀ f ∈ mg.Functions, f.Name ≠ some fname) →
      mergeStep superName depth (info, mg) func =
        ({ info with OverrideClasses := info.OverrideClasses ++ [[depth]] },
         { mg with Functions := mg.Functions ++ [copy_function func] })) ∧
    ((∃ f ∈ mg.Functions, f.Name = some fname) →
      (mergeStep superName depth (info, mg) func).2.Functions.length =
          mg.Functions.length ∧
      (mergeStep superName depth (info, mg) func).1.OverrideClasses.length =
          info.OverrideClasses.length) := by
  constructor
  · intro hfresh
    exact mergeStep_fresh superName depth info mg func fname hname hnc hfresh
  · intro hhit
    exact mergeStep_namehit superName depth info mg func fname hname hhit

/-- Claim C1 witness: the amended statement applied to the concrete
overload scenario — the fresh-name branch appends, the name-hit branch
appends nothing. -/
theorem claim_C1_witness :
    (mergeStep "A" 1
        (vtkParseMerge_CreateMergeInfo classB_overload, classB_overload)
        (mkMethod "Bar" [1] none false) =
      ({ vtkParseMerge_CreateMergeInfo classB_overload with
          OverrideClasses := (vtkParseMerge_CreateMergeInfo classB_overload).OverrideClasses ++ [[1]] },
       { classB_overload with
          Functions := classB_overload.Functions ++ [copy_function (mkMethod "Bar" [1] none false)] })) ∧
    ((mergeStep "A" 1
        (vtkParseMerge_CreateMergeInfo classB_overload, classB_overload)
        (mkMethod "Foo" [1] none false)).2.Functions.length =
      classB_overload.Functions.length) := by
  constructor
  · exact (claim_C1 "A" 1 (vtkParseMerge_CreateMergeInfo classB_overload)
      classB_overload (mkMethod "Bar" [1] none false) "Bar" rfl
      (by decide)).1 (by decide)
  · exact ((claim_C1 "A" 1 (vtkParseMerge_CreateMergeInfo classB_overload)
      classB_overload (mkMethod "Foo" [1] none false) "Foo" rfl
      (by decide)).2 ⟨mkMethod "Foo" [2] none false, by decide, rfl⟩).1

/-- Registry with six override chains, used to exhibit the PushOverride
return-value quirk at function index 5. -/
def infoSixChains : MergeInfo :=
  { ClassNames := ["X"],
    OverrideClasses := [[0], [0], [0], [0], [0], [0]] }

/-- Claim C3 (counterexample): pushing depth 7 onto chain 5 returns chain
slot 1; repeating the same push returns 5 — the function index argument,
not the index of the existing occurrence — so repeated pushes of the same
key do not yield the same index. -/
theorem claim_C3_cx :
    (vtkParseMerge_PushOverride infoSixChains 5 7).1 = 1 ∧
    (vtkParseMerge_PushOverride
      (vtkParseMerge_PushOverride infoSixChains 5 7).2 5 7).1 = 5 ∧
    (5 : Nat) ≠ 1 := by
  refine ⟨by decide, by decide, by decide⟩

/-- Claim C3 (amended): PushClass honours the pushUnique contract — it
returns the index of the existing occurrence when the name is present
(leaving the registry unchanged), appends and returns the new index when it
is absent, and repeated pushes of the same name therefore always return the
same index.  PushOverride, however, only honours the contract on the append
path: when the depth is absent it appends and returns the new chain slot,
but when the depth is already present it returns its function-index
argument i (the state is unchanged), so its return value is not stable
across repeats. -/
theorem claim_C3 (info : MergeInfo) (name : String) (i depth : Nat) :
    (name ∈ info.ClassNames →
      (vtkParseMerge_PushClass info name).2 = info ∧
      (vtkParseMerge_PushClass info name).1 < info.ClassNames.length ∧
      info.ClassNames.getD (vtkParseMerge_PushClass info name).1 "" = name) ∧
    (name ∉ info.ClassNames →
      vtkParseMerge_PushClass info name =
        (info.ClassNames.length,
         { info with ClassNames := info.ClassNames ++ [name] })) ∧
    ((vtkParseMerge_PushClass (vtkParseMerge_PushClass info name).2 name).1 =
      (vtkParseMerge_PushClass info name).1) ∧
    (depth ∈ info.OverrideClasses.getD i [] →
      vtkParseMerge_PushOverride info i depth = (i, info)) ∧
    (depth ∉ info.OverrideClasses.getD i [] →
      vtkParseMerge_PushOverride info i depth =
        ((info.OverrideClasses.getD i []).length,
         { info with OverrideClasses := info.OverrideClasses.set i (info.OverrideClasses.getD i [] ++ [depth]) })) := by
  refine ⟨fun h => pushClass_mem info name h,
          fun h => pushClass_not_mem info name h,
          pushClass_stable info name,
          fun h => pushOverride_mem info i depth h,
          fun h => pushOverride_not_mem info i depth h⟩

/-- Claim C3 witness: the amended contract applied at concrete inputs:
a repeated class push returns the original index with the registry
unchanged, and a fresh override push appends at the end of the chain. -/
theorem claim_C3_witness :
    ((vtkParseMerge_PushClass infoSixChains "X").2 = infoSixChains ∧
     (vtkParseMerge_PushClass infoSixChains "X").1 < infoSixChains.ClassNames.length ∧
     infoSixChains.ClassNames.getD (vtkParseMerge_PushClass infoSixChains "X").1 "" = "X") ∧
    (vtkParseMerge_PushOverride infoSixChains 5 7 =
      (1, { infoSixChains with
        OverrideClasses := infoSixChains.OverrideClasses.set 5 ([0] ++ [7]) })) := by
  constructor
  · exact (claim_C3 infoSixChains "X" 0 0).1 (by decide)
  · exact (claim_C3 infoSixChains "X" 5 7).2.2.2.2 (by decide)

/-- Root class B declaring a non-virtual Foo(int) with no comment. -/
def classB_override : ClassInfo :=
  { Name := "B", SuperClasses := ["A"],
    Functions := [mkMethod "Foo" [1] none false] }

/-- Ancestor class A declaring virtual Foo(int) with a comment. -/
def classA_override : ClassInfo :=
  { Name := "A", SuperClasses := [],
    Functions := [mkMethod "Foo" [1] (some "original") true] }

/-- Claim C5: when an ancestor method is override-equivalent to flattened
entry k (and no other entry shares its name), the merge step appends
nothing; entry k becomes merge_function of the old entry and the ancestor
method, whose virtual flag is the OR of the two flags and whose comment is
filled from the ancestor only when the existing comment is absent; the
ancestor registry index depth is pushed idempotently onto chain k, which
keeps all its previous members. -/
theorem claim_C5 (superName : String) (depth : Nat) (info : MergeInfo)
    (mg : ClassInfo) (func : FunctionInfo) (fname : String) (k : Nat)
    (hname : func.Name = some fname)
    (hnc : isCtorDtorOf fname superName = false)
    (hk : k < mg.Functions.length)
    (hkc : k < info.OverrideClasses.length)
    (hkname : (mg.Functions.getD k default).Name = some fname)
    (hsig : sigMatches (mg.Functions.getD k default) func = true)
    (hunique : ∀ l, l < mg.Functions.length → l ≠ k →
        (mg.Functions.getD l default).Name ≠ some fname) :
    (mergeStep superName depth (info, mg) func).2.Functions.length =
        mg.Functions.length ∧
    (mergeStep superName depth (info, mg) func).2.Functions.getD k default =
        merge_function (mg.Functions.getD k default) func ∧
    (merge_function (mg.Functions.getD k default) func).IsVirtual =
        ((mg.Functions.getD k default).IsVirtual || func.IsVirtual) ∧
    (merge_function (mg.Functions.getD k default) func).Comment =
        (if (mg.Functions.getD k default).Comment.isNone then func.Comment
         else (mg.Functions.getD k default).Comment) ∧
    (mergeStep superName depth (info, mg) func).1.OverrideClasses.getD k [] =
        (if depth ∈ info.OverrideClasses.getD k [] then
          info.OverrideClasses.getD k []
         else info.OverrideClasses.getD k [] ++ [depth]) ∧
    depth ∈ (mergeStep superName depth (info, mg) func).1.OverrideClasses.getD k [] ∧
    (∀ x ∈ info.OverrideClasses.getD k [],
      x ∈ (mergeStep superName depth (info, mg) func).1.OverrideClasses.getD k []) := by
  have hinner := mergeInner_unique_sig fname func depth k
    (List.range mg.Functions.length) false info mg hkname hsig
    (fun l hl hlk => hunique l (List.mem_range.mp hl) hlk)
    (List.nodup_iff_count_le_one.mp (List.nodup_range _) k)
    (List.mem_range.mpr hk)
  have hstep : mergeStep superName depth (info, mg) func =
      ((vtkParseMerge_PushOverride info k depth).2,
       { mg with Functions := mg.Functions.set k (merge_function (mg.Functions.getD k default) func) }) := by
    simp only [mergeStep]
    rw [hname]
    dsimp only
    rw [if_neg (by rw [hnc]; exact Bool.false_ne_true)]
    rw [hinner]
    rfl
  rw [hstep]
  refine ⟨by simp, ?_, merge_function_isVirtual _ _, merge_function_comment _ _,
          ?_, ?_, ?_⟩
  · exact getD_set_eq _ _ _ _ hk
  · exact pushOverride_getD_eq info k depth hkc
  · rw [pushOverride_getD_eq info k depth hkc]
    by_cases hm : depth ∈ info.OverrideClasses.getD k []
    · rw [if_pos hm]; exact hm
    · rw [if_neg hm]
      exact List.mem_append.mpr (Or.inr (List.mem_singleton.mpr rfl))
  · intro x hx
    rw [pushOverride_getD_eq info k depth hkc]
    by_cases hm : depth ∈ info.OverrideClasses.getD k []
    · rw [if_pos hm]; exact hx
    · rw [if_neg hm]
      exact List.mem_append.mpr (Or.inl hx)

/-- Claim C5 witness: the override-annotation scenario — B declares
Foo(int) without a comment, ancestor A declares virtual Foo(int) with
comment "original"; after the merge step at depth 1 the list length stays
1, the entry is the in-place merge of the two declarations, and 1 joins
the chain of entry 0. -/
theorem claim_C5_witness :
    (mergeStep "A" 1
        (vtkParseMerge_CreateMergeInfo classB_override, classB_override)
        (mkMethod "Foo" [1] (some "original") true)).2.Functions.length =
      classB_override.Functions.length ∧
    (mergeStep "A" 1
        (vtkParseMerge_CreateMergeInfo classB_override, classB_override)
        (mkMethod "Foo" [1] (some "original") true)).2.Functions.getD 0 default =
      merge_function (classB_override.Functions.getD 0 default)
        (mkMethod "Foo" [1] (some "original") true) ∧
    1 ∈ (mergeStep "A" 1
        (vtkParseMerge_CreateMergeInfo classB_override, classB_override)
        (mkMethod "Foo" [1] (some "original") true)).1.OverrideClasses.getD 0 [] := by
  have h := claim_C5 "A" 1 (vtkParseMerge_CreateMergeInfo classB_override)
    classB_override (mkMethod "Foo" [1] (some "original") true) "Foo" 0
    rfl (by decide) (by decide) (by decide) (by decide) (by decide)
    (fun l hl hlk => absurd (Nat.lt_one_iff.mp hl) hlk)
  exact ⟨h.1, h.2.1, h.2.2.2.2.2.1⟩

/-- Root class B whose only entry is its own constructor B(). -/
def classB_ctor : ClassInfo :=
  { Name := "B", SuperClasses := ["A"],
    Functions := [mkMethod "B" [] none false] }

/-- Pathological ancestor A declaring a plain virtual method named "B"
with no arguments — a legal method whose name coincides with the name of
the root class. -/
def classA_methodB : ClassInfo :=
  { Name := "A", SuperClasses := [],
    Functions := [mkMethod "B" [] none true] }

/-- Ancestor A with a constructor, a destructor and one ordinary method. -/
def classA_ctor : ClassInfo :=
  { Name := "A", SuperClasses := [],
    Functions := [mkMethod "A" [] none false, mkMethod "~A" [] none false,
                  mkMethod "GetX" [] none false] }

/-- Claim C6 (counterexample): the root's seeded constructor entry B() is
NOT left untouched by every merge call — merging an ancestor A that
declares an ordinary virtual method named "B" with the same empty argument
list merges in place into the seeded B() entry and flips its virtual
flag. -/
theorem claim_C6_cx :
    ((vtkParseMerge_Merge (vtkParseMerge_CreateMergeInfo classB_ctor)
        classB_ctor classA_methodB).2.2.Functions.getD 0 default).IsVirtual = true ∧
    (classB_ctor.Functions.getD 0 default).IsVirtual = false := by
  refine ⟨by decide, by decide⟩

/-- Claim C6 (amended): a merged ancestor method that is unnamed, or named
like the ancestor's own constructor (the ancestor class name) or destructor
(a tilde followed by the ancestor class name), is skipped and contributes
nothing — the merge state is unchanged by its processing.  The root's own
seeded entries, its constructor and destructor included, are left untouched
by a merge call provided the ancestor declares no method whose name equals
the entry's name (the ancestor's own constructor and destructor never do,
since they carry the ancestor's name, but an ordinary ancestor method could
coincide). -/
theorem claim_C6 (superName : String) (depth : Nat) (info : MergeInfo)
    (mg super : ClassInfo) (func : FunctionInfo) (k : Nat) (nm : String) :
    ((func.Name = none ∨ func.Name = some superName ∨
        func.Name = some ("~" ++ superName)) →
      mergeStep superName depth (info, mg) func = (info, mg)) ∧
    (k < mg.Functions.length → k < info.OverrideClasses.length →
      (mg.Functions.getD k default).Name = some nm →
      (∀ f ∈ super.Functions, f.Name ≠ some nm) →
      (vtkParseMerge_Merge info mg super).2.2.Functions.getD k default =
          mg.Functions.getD k default ∧
      (vtkParseMerge_Merge info mg super).2.1.OverrideClasses.getD k [] =
          info.OverrideClasses.getD k []) := by
  constructor
  · intro h
    exact mergeStep_skip superName depth info mg func h
  · intro hk hkc hnm hne
    show ((vtkParseMerge_Merge info mg super).2.2.Functions.getD k default =
        mg.Functions.getD k default ∧ _)
    unfold vtkParseMerge_Merge
    have h := mergeFold_untouched super.Name
      (vtkParseMerge_PushClass info super.Name).1 super.Functions
      (vtkParseMerge_PushClass info super.Name).2 mg k nm hk
      (by rw [pushClass_overrides]; exact hkc) hnm hne
    refine ⟨h.1, ?_⟩
    rw [show ((vtkParseMerge_PushClass info super.Name).2).OverrideClasses.getD k [] = info.OverrideClasses.getD k [] from by rw [pushClass_overrides]] at h
    exact h.2

/-- Claim C6 witness: merging ancestor A (with its constructor A(),
destructor ~A() and method GetX) into root B leaves the seeded B() entry
and its chain untouched, and the processing of the ancestor constructor
itself changes nothing. -/
theorem claim_C6_witness :
    (mergeStep "A" 1
        (vtkParseMerge_CreateMergeInfo classB_ctor, classB_ctor)
        (mkMethod "A" [] none false) =
      (vtkParseMerge_CreateMergeInfo classB_ctor, classB_ctor)) ∧
    (vtkParseMerge_Merge (vtkParseMerge_CreateMergeInfo classB_ctor)
        classB_ctor classA_ctor).2.2.Functions.getD 0 default =
      classB_ctor.Functions.getD 0 default ∧
    (vtkParseMerge_Merge (vtkParseMerge_CreateMergeInfo classB_ctor)
        classB_ctor classA_ctor).2.1.OverrideClasses.getD 0 [] =
      (vtkParseMerge_CreateMergeInfo classB_ctor).OverrideClasses.getD 0 [] := by
  constructor
  · exact (claim_C6 "A" 1 (vtkParseMerge_CreateMergeInfo classB_ctor)
      classB_ctor classA_ctor (mkMethod "A" [] none false) 0 "B").1
      (Or.inr (Or.inl rfl))
  · exact (claim_C6 "A" 1 (vtkParseMerge_CreateMergeInfo classB_ctor)
      classB_ctor classA_ctor (mkMethod "A" [] none false) 0 "B").2
      (by decide) (by decide) (by decide) (by decide)

/-- Claim C8: the number of override chains equals the number of flattened
methods and every chain is non-empty, both right after CreateMergeInfo and
after every Merge call whose input satisfied the invariant — the two
structures are mutated in lockstep. -/
theorem claim_C8 (c : ClassInfo) (info : MergeInfo) (mg super : ClassInfo) :
    ((vtkParseMerge_CreateMergeInfo c).NumberOfFunctions =
        c.NumberOfFunctions ∧
     ∀ ch ∈ (vtkParseMerge_CreateMergeInfo c).OverrideClasses, ch ≠ []) ∧
    (info.NumberOfFunctions = mg.NumberOfFunctions →
     (∀ ch ∈ info.OverrideClasses, ch ≠ []) →
     (vtkParseMerge_Merge info mg super).2.1.NumberOfFunctions =
        (vtkParseMerge_Merge info mg super).2.2.NumberOfFunctions ∧
     ∀ ch ∈ (vtkParseMerge_Merge info mg super).2.1.OverrideClasses,
        ch ≠ []) := by
  constructor
  · constructor
    · show (vtkParseMerge_CreateMergeInfo c).OverrideClasses.length =
        c.Functions.length
      rw [(createMergeInfo_spec c).2, List.length_map]
    · intro ch hch
      rw [(createMergeInfo_spec c).2] at hch
      rcases List.mem_map.mp hch with ⟨f, _, hf⟩
      rw [← hf]
      simp
  · intro hlen hne
    constructor
    · exact merge_lockstep info mg super hlen
    · exact merge_all_chains (fun ch => ch ≠ [])
        (fun ch d _ _ => by simp)
        (fun d => by simp)
        info mg super hne

/-- Claim C8 witness: the invariant holds concretely for the overload
scenario — chain count equals method count after CreateMergeInfo and stays
equal after merging the ancestor, with all chains non-empty. -/
theorem claim_C8_witness :
    (vtkParseMerge_CreateMergeInfo classB_overload).NumberOfFunctions =
      classB_overload.NumberOfFunctions ∧
    (vtkParseMerge_Merge (vtkParseMerge_CreateMergeInfo classB_overload)
        classB_overload classA_overload).2.1.NumberOfFunctions =
      (vtkParseMerge_Merge (vtkParseMerge_CreateMergeInfo classB_overload)
        classB_overload classA_overload).2.2.NumberOfFunctions := by
  have h := claim_C8 classB_overload
    (vtkParseMerge_CreateMergeInfo classB_overload) classB_overload
    classA_overload
  exact ⟨h.1.1, (h.2 (by decide) (by decide)).1⟩

/-! Branch equations for vtkWrapXML_MergeHelper and mergeSupers. -/

theorem mergeHelper_zero (env : Env) (data : NamespaceInfo)
    (cname : String) (info : MergeInfo) (merge : ClassInfo) :
    vtkWrapXML_MergeHelper 0 env data cname info merge = .ok (info, merge) := by
  simp [vtkWrapXML_MergeHelper]

theorem mergeSupers_nil (fuel : Nat) (env : Env) (data : NamespaceInfo)
    (info : MergeInfo) (merge : ClassInfo) :
    mergeSupers fuel env data [] info merge = .ok (info, merge) := by
  simp [mergeSupers]

theorem mergeSupers_cons (fuel : Nat) (env : Env) (data : NamespaceInfo)
    (c : String) (rest : List String) (info : MergeInfo) (merge : ClassInfo) :
    mergeSupers fuel env data (c :: rest) info merge =
      (match vtkWrapXML_MergeHelper fuel env data c info merge with
       | .ok (info2, merge2) => mergeSupers fuel env data rest info2 merge2
       | .error e => .error e) := by
  rw [mergeSupers]

theorem mergeHelper_local (fuel : Nat) (env : Env) (data : NamespaceInfo)
    (cname : String) (info : MergeInfo) (merge : ClassInfo)
    (cinfo : ClassInfo) (h : findClass data.Classes cname = some cinfo) :
    vtkWrapXML_MergeHelper (fuel + 1) env data cname info merge =
      mergeSupers fuel env data cinfo.SuperClasses
        (vtkParseMerge_Merge info merge cinfo).2.1
        (vtkParseMerge_Merge info merge cinfo).2.2 := by
  rw [vtkWrapXML_MergeHelper]
  rw [h]

theorem mergeHelper_empty (fuel : Nat) (env : Env) (data : NamespaceInfo)
    (cname : String) (info : MergeInfo) (merge : ClassInfo)
    (h : findClass data.Classes cname = none)
    (hn : data.Classes.length = 0) :
    vtkWrapXML_MergeHelper (fuel + 1) env data cname info merge =
      .ok (info, merge) := by
  rw [vtkWrapXML_MergeHelper]
  rw [h, hn]
  simp

theorem mergeHelper_trunc (fuel : Nat) (env : Env) (data : NamespaceInfo)
    (cname : String) (info : MergeInfo) (merge : ClassInfo)
    (h : findClass data.Classes cname = none)
    (hn : data.Classes.length > 0)
    (hentry : env.findEntry cname = none) :
    vtkWrapXML_MergeHelper (fuel + 1) env data cname info merge =
      .ok (info, merge) := by
  rw [vtkWrapXML_MergeHelper]
  rw [h]
  simp only [if_pos hn, hentry]

theorem mergeHelper_locate_fail (fuel : Nat) (env : Env)
    (data : NamespaceInfo) (cname : String) (info : MergeInfo)
    (merge : ClassInfo) (header : String)
    (h : findClass data.Classes cname = none)
    (hn : data.Classes.length > 0)
    (hentry : env.findEntry cname = some header)
    (hloc : env.findIncludeFile header = none) :
    vtkWrapXML_MergeHelper (fuel + 1) env data cname info merge =
      .error ⟨1, some ("Could not locate header file " ++ header)⟩ := by
  rw [vtkWrapXML_MergeHelper]
  rw [h]
  simp only [if_pos hn, hentry, hloc]

theorem mergeHelper_open_fail (fuel : Nat) (env : Env)
    (data : NamespaceInfo) (cname : String) (info : MergeInfo)
    (merge : ClassInfo) (header filename : String)
    (h : findClass data.Classes cname = none)
    (hn : data.Classes.length > 0)
    (hentry : env.findEntry cname = some header)
    (hloc : env.findIncludeFile header = some filename)
    (hopen : env.fopenOk filename = false) :
    vtkWrapXML_MergeHelper (fuel + 1) env data cname info merge =
      .error ⟨1, some ("Could not open header file " ++ header)⟩ := by
  rw [vtkWrapXML_MergeHelper]
  rw [h]
  simp only [if_pos hn, hentry, hloc, hopen]
  simp

theorem mergeHelper_parse_fail (fuel : Nat) (env : Env)
    (data : NamespaceInfo) (cname : String) (info : MergeInfo)
    (merge : ClassInfo) (header filename : String)
    (h : findClass data.Classes cname = none)
    (hn : data.Classes.length > 0)
    (hentry : env.findEntry cname = some header)
    (hloc : env.findIncludeFile header = some filename)
    (hopen : env.fopenOk filename = true)
    (hparse : env.parseFile filename = none) :
    vtkWrapXML_MergeHelper (fuel + 1) env data cname info merge =
      .error ⟨1, none⟩ := by
  rw [vtkWrapXML_MergeHelper]
  rw [h]
  simp only [if_pos hn, hentry, hloc, hopen, hparse]
  simp

theorem mergeHelper_loaded_missing (fuel : Nat) (env : Env)
    (data : NamespaceInfo) (cname : String) (info : MergeInfo)
    (merge : ClassInfo) (header filename : String)
    (contents : NamespaceInfo)
    (h : findClass data.Classes cname = none)
    (hn : data.Classes.length > 0)
    (hentry : env.findEntry cname = some header)
    (hloc : env.findIncludeFile header = some filename)
    (hopen : env.fopenOk filename = true)
    (hparse : env.parseFile filename = some contents)
    (h2 : findClass (applyHints env contents).Classes cname = none) :
    vtkWrapXML_MergeHelper (fuel + 1) env data cname info merge =
      .ok (info, merge) := by
  rw [vtkWrapXML_MergeHelper]
  rw [h]
  simp only [if_pos hn, hentry, hloc, hopen, hparse, h2]
  simp

theorem mergeHelper_loaded_found (fuel : Nat) (env : Env)
    (data : NamespaceInfo) (cname : String) (info : MergeInfo)
    (merge : ClassInfo) (header filename : String)
    (contents : NamespaceInfo) (cinfo : ClassInfo)
    (h : findClass data.Classes cname = none)
    (hn : data.Classes.length > 0)
    (hentry : env.findEntry cname = some header)
    (hloc : env.findIncludeFile header = some filename)
    (hopen : env.fopenOk filename = true)
    (hparse : env.parseFile filename = some contents)
    (h2 : findClass (applyHints env contents).Classes cname = some cinfo) :
    vtkWrapXML_MergeHelper (fuel + 1) env data cname info merge =
      mergeSupers fuel env (applyHints env contents) cinfo.SuperClasses
        (vtkParseMerge_Merge info merge cinfo).2.1
        (vtkParseMerge_Merge info merge cinfo).2.2 := by
  rw [vtkWrapXML_MergeHelper]
  rw [h]
  simp only [if_pos hn, hentry, hloc, hopen, hparse, h2]
  simp [h2]

/-! Registry invariants through the whole hierarchy walk. -/

/-- Registry invariant: no class name is registered twice and no override
chain carries a duplicate contributor index. -/
def InfoInv (info : MergeInfo) : Prop :=
  info.ClassNames.Nodup ∧ ∀ ch ∈ info.OverrideClasses, ch.Nodup

theorem nodup_append_singleton {ch : List Nat} {d : Nat}
    (h : ch.Nodup) (hd : d ∉ ch) : (ch ++ [d]).Nodup := by
  rw [List.nodup_append]
  refine ⟨h, List.nodup_singleton d, fun a ha hb => ?_⟩
  rw [List.mem_singleton.mp hb] at ha
  exact hd ha

theorem merge_info_inv (info : MergeInfo) (mg super : ClassInfo)
    (h : InfoInv info) :
    InfoInv (vtkParseMerge_Merge info mg super).2.1 := by
  constructor
  · exact merge_nodup_classnames info mg super h.1
  · exact merge_all_chains (fun ch => ch.Nodup)
      (fun ch d hch hd => nodup_append_singleton hch hd)
      (fun d => List.nodup_singleton d)
      info mg super h.2

theorem walk_inv (fuel : Nat) :
    (∀ (env : Env) (data : NamespaceInfo) (cname : String)
       (info : MergeInfo) (merge : ClassInfo) (r : MergeInfo × ClassInfo),
      InfoInv info →
      vtkWrapXML_MergeHelper fuel env data cname info merge = .ok r →
      InfoInv r.1) ∧
    (∀ (env : Env) (data : NamespaceInfo) (names : List String)
       (info : MergeInfo) (merge : ClassInfo) (r : MergeInfo × ClassInfo),
      InfoInv info →
      mergeSupers fuel env data names info merge = .ok r →
      InfoInv r.1) := by
  induction fuel with
  | zero =>
      have hhelper : ∀ (env : Env) (data : NamespaceInfo) (cname : String)
          (info : MergeInfo) (merge : ClassInfo) (r : MergeInfo × ClassInfo),
          InfoInv info →
          vtkWrapXML_MergeHelper 0 env data cname info merge = .ok r →
          InfoInv r.1 := by
        intro env data cname info merge r hinv heq
        rw [mergeHelper_zero] at heq
        cases heq
        exact hinv
      refine ⟨hhelper, ?_⟩
      intro env data names
      induction names with
      | nil =>
          intro info merge r hinv heq
          rw [mergeSupers_nil] at heq
          cases heq
          exact hinv
      | cons c rest ih =>
          intro info merge r hinv heq
          rw [mergeSupers_cons] at heq
          cases hh : vtkWrapXML_MergeHelper 0 env data c info merge with
          | error e => rw [hh] at heq; cases heq
          | ok s =>
              rw [hh] at heq
              have hinv2 := hhelper env data c info merge s hinv hh
              exact ih s.1 s.2 r hinv2 heq
  | succ fuel ihfuel =>
      have hhelper : ∀ (env : Env) (data : NamespaceInfo) (cname : String)
          (info : MergeInfo) (merge : ClassInfo) (r : MergeInfo × ClassInfo),
          InfoInv info →
          vtkWrapXML_MergeHelper (fuel + 1) env data cname info merge = .ok r →
          InfoInv r.1 := by
        intro env data cname info merge r hinv heq
        cases hfc : findClass data.Classes cname with
        | some cinfo =>
            rw [mergeHelper_local fuel env data cname info merge cinfo hfc] at heq
            exact ihfuel.2 env data cinfo.SuperClasses _ _ r
              (merge_info_inv info merge cinfo hinv) heq
        | none =>
            cases hn : data.Classes.length with
            | zero =>
                rw [mergeHelper_empty fuel env data cname info merge hfc hn] at heq
                cases heq
                exact hinv
            | succ n =>
                have hn2 : data.Classes.length > 0 := by rw [hn]; exact Nat.succ_pos n
                cases hentry : env.findEntry cname with
                | none =>
                    rw [mergeHelper_trunc fuel env data cname info merge hfc hn2 hentry] at heq
                    cases heq
                    exact hinv
                | some header =>
                    cases hloc : env.findIncludeFile header with
                    | none =>
                        rw [mergeHelper_locate_fail fuel env data cname info merge header hfc hn2 hentry hloc] at heq
                        cases heq
                    | some filename =>
                        cases hopen : env.fopenOk filename with
                        | false =>
                            rw [mergeHelper_open_fail fuel env data cname info merge header filename hfc hn2 hentry hloc hopen] at heq
                            cases heq
                        | true =>
                            cases hparse : env.parseFile filename with
                            | none =>
                                rw [mergeHelper_parse_fail fuel env data cname info merge header filename hfc hn2 hentry hloc hopen hparse] at heq
                                cases heq
                            | some contents =>
                                cases h2 : findClass (applyHints env contents).Classes cname with
                                | none =>
                                    rw [mergeHelper_loaded_missing fuel env data cname info merge header filename contents hfc hn2 hentry hloc hopen hparse h2] at heq
                                    cases heq
                                    exact hinv
                                | some cinfo =>
                                    rw [mergeHelper_loaded_found fuel env data cname info merge header filename contents cinfo hfc hn2 hentry hloc hopen hparse h2] at heq
                                    exact ihfuel.2 env (applyHints env contents) cinfo.SuperClasses _ _ r
                                      (merge_info_inv info merge cinfo hinv) heq
      refine ⟨hhelper, ?_⟩
      intro env data names
      induction names with
      | nil =>
          intro info merge r hinv heq
          rw [mergeSupers_nil] at heq
          cases heq
          exact hinv
      | cons c rest ih =>
          intro info merge r hinv heq
          rw [mergeSupers_cons] at heq
          cases hh : vtkWrapXML_MergeHelper (fuel + 1) env data c info merge with
          | error e => rw [hh] at heq; cases heq
          | ok s =>
              rw [hh] at heq
              have hinv2 := hhelper env data c info merge s hinv hh
              exact ih s.1 s.2 r hinv2 heq

/-! Concrete environments and classes for the walk-level claims. -/

/-- Leaf ancestor A of the diamond, declaring GetX(). -/
def classA_dm : ClassInfo :=
  { Name := "A", SuperClasses := [], Functions := [mkMethod "GetX" [] none false] }

/-- Left parent B of the diamond, declaring base A and no methods. -/
def classB_dm : ClassInfo :=
  { Name := "B", SuperClasses := ["A"], Functions := [] }

/-- Right parent C of the diamond, declaring base A and no methods. -/
def classC_dm : ClassInfo :=
  { Name := "C", SuperClasses := ["A"], Functions := [] }

/-- Diamond root D with declared bases [B, C]. -/
def classD_dm : ClassInfo :=
  { Name := "D", SuperClasses := ["B", "C"], Functions := [] }

/-- Environment with a hierarchy file supplied but an index that knows no
names; every diamond class resolves locally. -/
def envDm : Env :=
  { hierarchyFileName := some "hier.txt",
    findEntry := fun _ => none,
    findIncludeFile := fun _ => none,
    fopenOk := fun _ => false,
    parseFile := fun _ => none,
    readHints := none }

/-- Declarations loaded for the diamond request. -/
def dataDm : NamespaceInfo :=
  { Classes := [classD_dm, classB_dm, classC_dm, classA_dm] }

/-- The merge record produced by the diamond walk: A registered once,
GetX carrying one contributor entry. -/
def diamondInfo : MergeInfo :=
  { ClassNames := ["D", "B", "A", "C"], OverrideClasses := [[2]] }

/-- The flattened diamond root after the walk. -/
def diamondMerge : ClassInfo :=
  { Name := "D", SuperClasses := ["B", "C"],
    Functions := [mkMethod "GetX" [] none false] }

/-- Claim C4: diamond inheritance collapses to one contributor entry —
registering an already-present class name returns the existing index and
leaves the registry unchanged; the record created for a root has no
duplicate names or chain entries; and every base walk (mergeSupers, any
environment, any fuel) preserves that invariant, so each class name is
registered at most once and each override chain carries each contributor
index at most once, however many paths reach the same ancestor. -/
theorem claim_C4 :
    (∀ (info : MergeInfo) (name : String), name ∈ info.ClassNames →
      (vtkParseMerge_PushClass info name).2 = info) ∧
    (∀ c : ClassInfo, InfoInv (vtkParseMerge_CreateMergeInfo c)) ∧
    (∀ (fuel : Nat) (env : Env) (data : NamespaceInfo) (names : List String)
       (info : MergeInfo) (merge : ClassInfo) (r : MergeInfo × ClassInfo),
      InfoInv info →
      mergeSupers fuel env data names info merge = .ok r →
      (∀ nm, r.1.ClassNames.count nm ≤ 1) ∧
      (∀ ch ∈ r.1.OverrideClasses, ∀ d, ch.count d ≤ 1)) := by
  refine ⟨fun info name h => (pushClass_mem info name h).1, ?_, ?_⟩
  · intro c
    rcases createMergeInfo_spec c with ⟨h1, h2⟩
    constructor
    · rw [h1]; exact List.nodup_singleton _
    · intro ch hch
      rw [h2] at hch
      rcases List.mem_map.mp hch with ⟨f, _, hf⟩
      rw [← hf]
      exact List.nodup_singleton _
  · intro fuel env data names info merge r hI heq
    have hinv := (walk_inv fuel).2 env data names info merge r hI heq
    exact ⟨fun nm => List.nodup_iff_count_le_one.mp hinv.1 nm,
           fun ch hch d => List.nodup_iff_count_le_one.mp (hinv.2 ch hch) d⟩

/-- Claim C4 witness: the concrete diamond — D with bases [B, C], both
declaring base A — registers A exactly once (a repeated push leaves the
registry unchanged) and the single method of A carries exactly one
contributor entry for the index of A. -/
theorem claim_C4_witness :
    (vtkParseMerge_PushClass diamondInfo "A").2 = diamondInfo ∧
    diamondInfo.ClassNames.count "A" ≤ 1 ∧
    diamondInfo.ClassNames.count "A" = 1 ∧
    (diamondInfo.OverrideClasses.getD 0 []).count 2 ≤ 1 ∧
    (diamondInfo.OverrideClasses.getD 0 []).count 2 = 1 := by
  have heq : mergeSupers 8 envDm dataDm classD_dm.SuperClasses
      (vtkParseMerge_CreateMergeInfo classD_dm) classD_dm =
      .ok (diamondInfo, diamondMerge) := by
    rw [show classD_dm.SuperClasses = ["B", "C"] from rfl]
    rw [mergeSupers_cons]
    rw [show (8 : Nat) = 7 + 1 from rfl]
    rw [mergeHelper_local 7 envDm dataDm "B" _ _ classB_dm rfl]
    rw [show classB_dm.SuperClasses = ["A"] from rfl]
    rw [mergeSupers_cons]
    rw [show (7 : Nat) = 6 + 1 from rfl]
    rw [mergeHelper_local 6 envDm dataDm "A" _ _ classA_dm rfl]
    rw [show classA_dm.SuperClasses = ([] : List String) from rfl]
    rw [mergeSupers_nil]
    dsimp only
    rw [mergeSupers_nil]
    dsimp only
    rw [show (6 + 1 + 1 : Nat) = 7 + 1 from rfl]
    rw [mergeSupers_cons]
    rw [mergeHelper_local 7 envDm dataDm "C" _ _ classC_dm rfl]
    rw [show classC_dm.SuperClasses = ["A"] from rfl]
    rw [mergeSupers_cons]
    rw [show (7 : Nat) = 6 + 1 from rfl]
    rw [mergeHelper_local 6 envDm dataDm "A" _ _ classA_dm rfl]
    rw [show classA_dm.SuperClasses = ([] : List String) from rfl]
    rw [mergeSupers_nil]
    dsimp only
    rw [mergeSupers_nil]
    dsimp only
    rw [mergeSupers_nil]
    rfl
  have hcounts := claim_C4.2.2 8 envDm dataDm classD_dm.SuperClasses
    (vtkParseMerge_CreateMergeInfo classD_dm) classD_dm
    (diamondInfo, diamondMerge)
    (claim_C4.2.1 classD_dm) heq
  refine ⟨claim_C4.1 diamondInfo "A" (by decide),
          hcounts.1 "A", by decide, ?_, by decide⟩
  exact hcounts.2 (diamondInfo.OverrideClasses.getD 0 []) (by decide) 2

/-- Environment with no hierarchy file supplied. -/
def envNoIndex : Env :=
  { hierarchyFileName := none,
    findEntry := fun _ => none,
    findIncludeFile := fun _ => none,
    fopenOk := fun _ => false,
    parseFile := fun _ => none,
    readHints := none }

/-- Root class D whose single declared base is B. -/
def classD_local : ClassInfo :=
  { Name := "D", SuperClasses := ["B"], Functions := [] }

/-- Base class B, locally declared, with one method Foo(int). -/
def classB_local : ClassInfo :=
  { Name := "B", SuperClasses := [], Functions := [mkMethod "Foo" [1] none false] }

/-- Declarations loaded for the local-resolution request. -/
def dataLocal : NamespaceInfo :=
  { Classes := [classD_local, classB_local] }

/-- Claim C2 (counterexample): with no hierarchy index supplied, a declared
base B that is present in the local declarations (with method Foo) is NOT
resolved and merged — vtkWrapXML_MergeSuperClasses skips the whole merge,
returns no MergeInfo, and leaves the root flattened list empty. -/
theorem claim_C2_cx :
    vtkWrapXML_MergeSuperClasses envNoIndex 5 dataLocal classD_local =
      .ok (none, classD_local) ∧
    classD_local.Functions = [] ∧
    findClass dataLocal.Classes "B" = some classB_local ∧
    classB_local.Functions.length = 1 := by
  exact ⟨rfl, rfl, rfl, rfl⟩

/-- Claim C2 (amended): when no hierarchy file name is supplied, no
MergeInfo is created and no merging happens at all — the function returns
none and the root class unchanged, even when the declared bases are present
in local scope.  When the walk does run, a base name found in the local
declarations is resolved from them alone (the result does not depend on the
index or file-system environment), and a base name absent both locally and
from the index truncates silently with the state unchanged. -/
theorem claim_C2 (env : Env) (fuel : Nat) (data : NamespaceInfo)
    (classInfo : ClassInfo) (cname : String) (info : MergeInfo)
    (merge : ClassInfo) (cinfo : ClassInfo) :
    (env.hierarchyFileName = none →
      vtkWrapXML_MergeSuperClasses env fuel data classInfo =
        .ok (none, classInfo)) ∧
    (findClass data.Classes cname = some cinfo → cinfo.SuperClasses = [] →
      vtkWrapXML_MergeHelper (fuel + 1) env data cname info merge =
        .ok ((vtkParseMerge_Merge info merge cinfo).2.1,
             (vtkParseMerge_Merge info merge cinfo).2.2)) ∧
    (findClass data.Classes cname = none → data.Classes.length > 0 →
      env.findEntry cname = none →
      vtkWrapXML_MergeHelper (fuel + 1) env data cname info merge =
        .ok (info, merge)) := by
  refine ⟨?_, ?_, ?_⟩
  · intro h
    unfold vtkWrapXML_MergeSuperClasses
    rw [h]
  · intro hfc hleaf
    rw [mergeHelper_local fuel env data cname info merge cinfo hfc, hleaf,
        mergeSupers_nil]
  · intro hfc hn hentry
    exact mergeHelper_trunc fuel env data cname info merge hfc hn hentry

/-- Claim C2 witness: the amended behaviour at concrete inputs — the
no-index run returns none; with an index supplied, locally declared leaf
base B is merged from local declarations, and an unknown base name Z
truncates silently. -/
theorem claim_C2_witness :
    (vtkWrapXML_MergeSuperClasses envNoIndex 5 dataLocal classD_local =
      .ok (none, classD_local)) ∧
    (vtkWrapXML_MergeHelper 5 envDm dataLocal "B"
        (vtkParseMerge_CreateMergeInfo classD_local) classD_local =
      .ok ((vtkParseMerge_Merge (vtkParseMerge_CreateMergeInfo classD_local)
              classD_local classB_local).2.1,
           (vtkParseMerge_Merge (vtkParseMerge_CreateMergeInfo classD_local)
              classD_local classB_local).2.2)) ∧
    (vtkWrapXML_MergeHelper 5 envDm dataLocal "Z"
        (vtkParseMerge_CreateMergeInfo classD_local) classD_local =
      .ok (vtkParseMerge_CreateMergeInfo classD_local, classD_local)) := by
  refine ⟨(claim_C2 envNoIndex 5 dataLocal classD_local "B"
            (vtkParseMerge_CreateMergeInfo classD_local) classD_local
            classB_local).1 rfl,
          (claim_C2 envDm 4 dataLocal classD_local "B"
            (vtkParseMerge_CreateMergeInfo classD_local) classD_local
            classB_local).2.1 rfl rfl,
          (claim_C2 envDm 4 dataLocal classD_local "Z"
            (vtkParseMerge_CreateMergeInfo classD_local) classD_local
            classB_local).2.2 rfl (by decide) rfl⟩

/-- Environment whose index locates class Z in header Z.h, whose include
search and open succeed, but whose parse fails. -/
def envParseFail : Env :=
  { hierarchyFileName := some "hier.txt",
    findEntry := fun n => if n = "Z" then some "Z.h" else none,
    findIncludeFile := fun h => some ("include/" ++ h),
    fopenOk := fun _ => true,
    parseFile := fun _ => none,
    readHints := none }

/-- Claim C9 (counterexample): when the located header parses
unsuccessfully, the process exits with status 1 but WITHOUT any diagnostic
from this code — the error carries no message naming the header, unlike
the locate- and open-failure paths. -/
theorem claim_C9_cx :
    vtkWrapXML_MergeHelper 3 envParseFail dataLocal "Z"
        (vtkParseMerge_CreateMergeInfo classD_local) classD_local =
      .error ⟨1, none⟩ ∧
    (FatalExit.mk 1 none).diagnostic = none ∧
    (FatalExit.mk 1 none).exitCode ≠ 0 := by
  refine ⟨?_, rfl, by decide⟩
  exact mergeHelper_parse_fail 2 envParseFail dataLocal "Z"
    (vtkParseMerge_CreateMergeInfo classD_local) classD_local "Z.h"
    "include/Z.h" rfl (by decide) rfl rfl rfl rfl

/-- Claim C9 (amended): when the hierarchy index yields a header for a base
name, a failed include-path search and a failed open both terminate the
process with exit status 1 and a diagnostic naming the header; a failed
parse also terminates with status 1 but emits no diagnostic from this
component (any message is the external parser's); in all three cases the
outcome is an error and no merge state is handed back. -/
theorem claim_C9 (fuel : Nat) (env : Env) (data : NamespaceInfo)
    (cname : String) (info : MergeInfo) (merge : ClassInfo)
    (header filename : String)
    (hfc : findClass data.Classes cname = none)
    (hn : data.Classes.length > 0)
    (hentry : env.findEntry cname = some header) :
    (env.findIncludeFile header = none →
      vtkWrapXML_MergeHelper (fuel + 1) env data cname info merge =
        .error ⟨1, some ("Could not locate header file " ++ header)⟩) ∧
    (env.findIncludeFile header = some filename →
      env.fopenOk filename = false →
      vtkWrapXML_MergeHelper (fuel + 1) env data cname info merge =
        .error ⟨1, some ("Could not open header file " ++ header)⟩) ∧
    (env.findIncludeFile header = some filename →
      env.fopenOk filename = true →
      env.parseFile filename = none →
      vtkWrapXML_MergeHelper (fuel + 1) env data cname info merge =
        .error ⟨1, none⟩) := by
  refine ⟨?_, ?_, ?_⟩
  · intro hloc
    exact mergeHelper_locate_fail fuel env data cname info merge header
      hfc hn hentry hloc
  · intro hloc hopen
    exact mergeHelper_open_fail fuel env data cname info merge header
      filename hfc hn hentry hloc hopen
  · intro hloc hopen hparse
    exact mergeHelper_parse_fail fuel env data cname info merge header
      filename hfc hn hentry hloc hopen hparse

/-- Environment whose index locates class Z but whose include search comes
up empty. -/
def envLocateFail : Env :=
  { envParseFail with findIncludeFile := fun _ => none }

/-- Claim C9 witness: the locate-failure path at a concrete input — exit
status 1 and a diagnostic naming Z.h. -/
theorem claim_C9_witness :
    vtkWrapXML_MergeHelper 3 envLocateFail dataLocal "Z"
        (vtkParseMerge_CreateMergeInfo classD_local) classD_local =
      .error ⟨1, some ("Could not locate header file " ++ "Z.h")⟩ := by
  exact (claim_C9 2 envLocateFail dataLocal "Z"
    (vtkParseMerge_CreateMergeInfo classD_local) classD_local "Z.h" "w"
    rfl (by decide) rfl).1 rfl

/-! Capacity-level model of the resizable arrays.  Here the malloc
bookkeeping of vtkParseMerge.c is explicit: an array is a block of cap
cells (cells at or beyond the element count hold the default value, in
place of uninitialized memory), and the push operations reallocate and
copy exactly as the C loops do. -/

/-- CapArr: cap allocated cells, data (always of length cap for reachable
states), and the number of cells in use. -/
structure CapArr (α : Type) where
  cap : Nat
  data : List α
  size : Nat
deriving Repr, DecidableEq, Inhabited

/-- The realloc-and-copy step shared by the push operations: when m is
non-zero, allocate m cells and copy the first n elements in index order
(the C for-loop), leaving the remaining cells uninitialized. -/
def capResize {α : Type} [Inhabited α] (arr : CapArr α) (n m : Nat) :
    CapArr α :=
  if m = 0 then arr
  else { cap := m,
         data := (List.range m).map
           (fun i => if i < n then arr.data.getD i default else default),
         size := arr.size }

/-- Writing the new element at slot n and bumping the count. -/
def capPush {α : Type} [Inhabited α] (arr : CapArr α) (n m : Nat) (x : α) :
    CapArr α :=
  let arr2 := capResize arr n m
  { arr2 with data := arr2.data.set n x, size := n + 1 }

/-- The growth computation of PushClass and PushFunction: reserve four
slots on the first insert, double when the current size is a power of two
of at least four, otherwise leave the allocation alone.  (PushClass writes
this as two separate ifs with disjoint conditions, PushFunction as an
else-if; both compute the same m.) -/
def mergeGrowth (n : Nat) : Nat :=
  if n == 0 then 4
  else if 4 ≤ n ∧ (n &&& (n - 1)) == 0 then n <<< 1
  else 0

/-- The growth computation of PushOverride: double whenever the current
chain size is a power of two (no lower bound and no first-insert jump —
chains are created with one slot by PushFunction). -/
def chainGrowth (n : Nat) : Nat :=
  if (n &&& (n - 1)) == 0 then n <<< 1 else 0

/-- MergeInfo at capacity level: the class-name registry and the two
parallel per-function arrays, each with explicit allocation. -/
structure MergeInfoCap where
  ClassNames : CapArr String
  NumberOfOverrides : CapArr Nat
  OverrideClasses : CapArr (CapArr Nat)
deriving Repr, DecidableEq

/-- vtkParseMerge_PushClass at capacity level: scan the used cells, and on
a miss grow per mergeGrowth, copy, write at slot n and bump the count. -/
def vtkParseMerge_PushClassCap (info : MergeInfoCap) (classname : String) :
    Nat × MergeInfoCap :=
  match findClassIndex (info.ClassNames.data.take info.ClassNames.size) classname with
  | some i => (i, info)
  | none =>
      let n := info.ClassNames.size
      (n, { info with ClassNames := capPush info.ClassNames n (mergeGrowth n) classname })

/-- vtkParseMerge_PushFunction at capacity level: grow both parallel
arrays with the same m, store count 1 and a freshly allocated one-slot
chain holding depth. -/
def vtkParseMerge_PushFunctionCap (info : MergeInfoCap) (depth : Nat) :
    Nat × MergeInfoCap :=
  let n := info.NumberOfOverrides.size
  let m := mergeGrowth n
  (n, { info with
        NumberOfOverrides := capPush info.NumberOfOverrides n m 1,
        OverrideClasses := capPush info.OverrideClasses n m
          { cap := 1, data := [depth], size := 1 } })

/-- vtkParseMerge_PushOverride at capacity level: scan the used cells of
chain i, and on a miss grow the chain per chainGrowth, copy, write depth at
slot n and store the bumped count in NumberOfOverrides[i]. -/
def vtkParseMerge_PushOverrideCap (info : MergeInfoCap) (i depth : Nat) :
    Nat × MergeInfoCap :=
  let chain := info.OverrideClasses.data.getD i default
  let n := info.NumberOfOverrides.data.getD i 0
  if depth ∈ chain.data.take n then
    (i, info)
  else
    (n, { info with
          NumberOfOverrides :=
            { info.NumberOfOverrides with
                data := info.NumberOfOverrides.data.set i (n + 1) },
          OverrideClasses :=
            { info.OverrideClasses with
                data := info.OverrideClasses.data.set i (capPush chain n (chainGrowth n) depth) } })

/-- Well-formed allocation of the class-name and per-function arrays: the
block has exactly cap cells, at most cap are used, and cap is zero or a
power of two of at least four. -/
def CapInv {α : Type} (arr : CapArr α) : Prop :=
  arr.data.length = arr.cap ∧ arr.size ≤ arr.cap ∧
  (arr.cap = 0 ∨ (4 ≤ arr.cap ∧ (arr.cap &&& (arr.cap - 1)) = 0))

/-- Well-formed allocation of an override chain: the block has exactly cap
cells, at most cap are used, and cap is a power of two of at least one
(chains are created with cap 1). -/
def ChainInv (arr : CapArr Nat) : Prop :=
  arr.data.length = arr.cap ∧ arr.size ≤ arr.cap ∧
  1 ≤ arr.cap ∧ (arr.cap &&& (arr.cap - 1)) = 0

/-! The bit test n AND (n-1) == 0 of the growth policies survives
doubling: this is the arithmetic core of the capacity invariant. -/

theorem land_pred_double (n : Nat) (hn : 1 ≤ n)
    (h : n &&& (n - 1) = 0) : (2 * n) &&& (2 * n - 1) = 0 := by
  apply Nat.eq_of_testBit_eq
  intro i
  rw [Nat.zero_testBit, Nat.testBit_land]
  cases i with
  | zero =>
      have h0 : Nat.testBit (2 * n) 0 = false := by
        rw [Nat.testBit_zero]
        simp [Nat.mul_mod_right]
      rw [h0, Bool.false_and]
  | succ i =>
      rw [Nat.testBit_add_one, Nat.testBit_add_one]
      have h2 : 2 * n / 2 = n := by omega
      have h3 : (2 * n - 1) / 2 = n - 1 := by omega
      rw [h2, h3]
      have h5 : Nat.testBit (n &&& (n - 1)) i = Nat.testBit 0 i := by rw [h]
      rw [Nat.testBit_land, Nat.zero_testBit] at h5
      exact h5

theorem capResize_cap {α : Type} [Inhabited α] (arr : CapArr α)
    (n m : Nat) : (capResize arr n m).cap = if m = 0 then arr.cap else m := by
  unfold capResize
  by_cases hm : m = 0 <;> simp [hm]

theorem capResize_length {α : Type} [Inhabited α] (arr : CapArr α)
    (n m : Nat) :
    (capResize arr n m).data.length = if m = 0 then arr.data.length else m := by
  unfold capResize
  by_cases hm : m = 0 <;> simp [hm]

theorem capResize_getD {α : Type} [Inhabited α] (arr : CapArr α)
    (n m i : Nat) (hi : i < n) (him : m = 0 ∨ i < m) :
    (capResize arr n m).data.getD i default = arr.data.getD i default := by
  unfold capResize
  rcases him with hm | hm
  · rw [if_pos hm]
  · have hm0 : m ≠ 0 := Nat.pos_iff_ne_zero.mp (Nat.lt_of_le_of_lt (Nat.zero_le i) hm)
    rw [if_neg hm0]
    have hlen : i < ((List.range m).map
        (fun i => if i < n then arr.data.getD i default else default)).length := by
      simp [hm]
    rw [List.getD_eq_getElem _ _ hlen]
    rw [List.getElem_map]
    rw [List.getElem_range]
    rw [if_pos hi]

theorem capPush_size {α : Type} [Inhabited α] (arr : CapArr α)
    (n m : Nat) (x : α) : (capPush arr n m x).size = n + 1 := rfl

theorem capPush_cap {α : Type} [Inhabited α] (arr : CapArr α)
    (n m : Nat) (x : α) :
    (capPush arr n m x).cap = if m = 0 then arr.cap else m :=
  capResize_cap arr n m

theorem capPush_length {α : Type} [Inhabited α] (arr : CapArr α)
    (n m : Nat) (x : α) :
    (capPush arr n m x).data.length = if m = 0 then arr.data.length else m := by
  unfold capPush
  simp only [List.length_set]
  exact capResize_length arr n m

theorem capPush_getD_lt {α : Type} [Inhabited α] (arr : CapArr α)
    (n m i : Nat) (x : α) (hi : i < n) (him : m = 0 ∨ i < m) :
    (capPush arr n m x).data.getD i default = arr.data.getD i default := by
  unfold capPush
  simp only
  rw [getD_set_ne _ _ _ _ _ (by omega : n ≠ i)]
  exact capResize_getD arr n m i hi him

theorem capPush_getD_self {α : Type} [Inhabited α] (arr : CapArr α)
    (n m : Nat) (x : α) (h : n < (capResize arr n m).data.length) :
    (capPush arr n m x).data.getD n default = x := by
  unfold capPush
  simp only
  exact getD_set_eq _ _ _ _ h

theorem mergeGrowth_zero : mergeGrowth 0 = 4 := rfl

theorem mergeGrowth_pow (n : Nat) (h4 : 4 ≤ n) (hb : (n &&& (n - 1)) = 0) :
    mergeGrowth n = 2 * n := by
  unfold mergeGrowth
  rw [if_neg (by simp; omega), if_pos ⟨h4, by rw [hb]; rfl⟩]
  omega

theorem mergeGrowth_rest (n : Nat) (hn : n ≠ 0)
    (h : ¬(4 ≤ n ∧ (n &&& (n - 1)) = 0)) : mergeGrowth n = 0 := by
  unfold mergeGrowth
  rw [if_neg (by simpa using hn), if_neg]
  intro hc
  exact h ⟨hc.1, by simpa using hc.2⟩

/-- Pushing past the end with the PushClass/PushFunction growth policy:
the allocation invariant is preserved, the count advances by one, every
previously stored element keeps its value and position, and the new
element lands in slot n. -/
theorem capPush_mergeGrowth_spec {α : Type} [Inhabited α] (arr : CapArr α)
    (x : α) (hinv : CapInv arr) :
    CapInv (capPush arr arr.size (mergeGrowth arr.size) x) ∧
    (capPush arr arr.size (mergeGrowth arr.size) x).size = arr.size + 1 ∧
    (∀ i, i < arr.size →
      (capPush arr arr.size (mergeGrowth arr.size) x).data.getD i default =
        arr.data.getD i default) ∧
    (capPush arr arr.size (mergeGrowth arr.size) x).data.getD arr.size default = x := by
  obtain ⟨hlen, hsz, hcap⟩ := hinv
  by_cases hn0 : arr.size = 0
  · have hm : mergeGrowth arr.size = 4 := by rw [hn0]; rfl
    refine ⟨⟨?_, ?_, ?_⟩, capPush_size _ _ _ _, ?_, ?_⟩
    · rw [capPush_length, capPush_cap, hm]
      simp
    · rw [capPush_size, capPush_cap, hm, hn0]
      simp
    · rw [capPush_cap, hm]
      rw [if_neg (by decide : ¬(4 : Nat) = 0)]
      right
      exact ⟨by decide, by decide⟩
    · intro i hi
      omega
    · refine capPush_getD_self arr _ _ x ?_
      rw [capResize_length, hm, hn0]
      simp
  · have hcap2 : 4 ≤ arr.cap ∧ (arr.cap &&& (arr.cap - 1)) = 0 := by
      rcases hcap with h0 | h2
      · omega
      · exact h2
    by_cases hgrow : 4 ≤ arr.size ∧ (arr.size &&& (arr.size - 1)) = 0
    · have hm : mergeGrowth arr.size = 2 * arr.size :=
        mergeGrowth_pow arr.size hgrow.1 hgrow.2
      have hm0 : mergeGrowth arr.size ≠ 0 := by omega
      refine ⟨⟨?_, ?_, ?_⟩, capPush_size _ _ _ _, ?_, ?_⟩
      · rw [capPush_length, capPush_cap, if_neg hm0, if_neg hm0]
      · rw [capPush_size, capPush_cap, if_neg hm0, hm]
        omega
      · rw [capPush_cap, if_neg hm0, hm]
        right
        exact ⟨by omega, land_pred_double arr.size (by omega) hgrow.2⟩
      · intro i hi
        exact capPush_getD_lt arr _ _ i x hi (Or.inr (by omega))
      · refine capPush_getD_self arr _ _ x ?_
        rw [capResize_length, if_neg hm0, hm]
        omega
    · have hm : mergeGrowth arr.size = 0 := mergeGrowth_rest arr.size hn0 hgrow
      have hlt : arr.size < arr.cap := by
        rcases Nat.lt_or_ge arr.size arr.cap with h | h
        · exact h
        · exfalso
          have heq : arr.size = arr.cap := by omega
          exact hgrow ⟨by omega, by rw [heq]; exact hcap2.2⟩
      refine ⟨⟨?_, ?_, ?_⟩, capPush_size _ _ _ _, ?_, ?_⟩
      · rw [capPush_length, capPush_cap, hm]
        simp [hlen]
      · rw [capPush_size, capPush_cap, hm]
        simp
        omega
      · rw [capPush_cap, hm]
        simp
        right
        exact hcap2
      · intro i hi
        exact capPush_getD_lt arr _ _ i x hi (Or.inl hm)
      · refine capPush_getD_self arr _ _ x ?_
        rw [capResize_length, hm]
        simp
        omega

theorem chainGrowth_pow (n : Nat) (hb : (n &&& (n - 1)) = 0) :
    chainGrowth n = 2 * n := by
  unfold chainGrowth
  rw [if_pos (by rw [hb]; rfl)]
  omega

theorem chainGrowth_rest (n : Nat) (h : (n &&& (n - 1)) ≠ 0) :
    chainGrowth n = 0 := by
  unfold chainGrowth
  rw [if_neg (by simpa using h)]

/-- Pushing past the end with the PushOverride growth policy on a chain:
the chain allocation invariant is preserved, the count advances, stored
elements keep their values and positions, and the new element lands in
slot n. -/
theorem capPush_chainGrowth_spec (arr : CapArr Nat) (x : Nat)
    (hinv : ChainInv arr) :
    ChainInv (capPush arr arr.size (chainGrowth arr.size) x) ∧
    (capPush arr arr.size (chainGrowth arr.size) x).size = arr.size + 1 ∧
    (∀ i, i < arr.size →
      (capPush arr arr.size (chainGrowth arr.size) x).data.getD i default =
        arr.data.getD i default) ∧
    (capPush arr arr.size (chainGrowth arr.size) x).data.getD arr.size default = x := by
  obtain ⟨hlen, hsz, hcap1, hcapb⟩ := hinv
  by_cases hn0 : arr.size = 0
  · have hm : chainGrowth arr.size = 0 := by rw [hn0]; rfl
    refine ⟨⟨?_, ?_, ?_, ?_⟩, capPush_size _ _ _ _, ?_, ?_⟩
    · rw [capPush_length, capPush_cap, hm]; simp [hlen]
    · rw [capPush_size, capPush_cap, hm]; simp; omega
    · rw [capPush_cap, hm]; simpa using hcap1
    · rw [capPush_cap, hm]; simpa using hcapb
    · intro i hi; omega
    · refine capPush_getD_self arr _ _ x ?_
      rw [capResize_length, hm]
      simp
      omega
  · by_cases hgrow : (arr.size &&& (arr.size - 1)) = 0
    · have hm : chainGrowth arr.size = 2 * arr.size :=
        chainGrowth_pow arr.size hgrow
      have hm0 : chainGrowth arr.size ≠ 0 := by omega
      refine ⟨⟨?_, ?_, ?_, ?_⟩, capPush_size _ _ _ _, ?_, ?_⟩
      · rw [capPush_length, capPush_cap, if_neg hm0, if_neg hm0]
      · rw [capPush_size, capPush_cap, if_neg hm0, hm]; omega
      · rw [capPush_cap, if_neg hm0, hm]; omega
      · rw [capPush_cap, if_neg hm0, hm]
        exact land_pred_double arr.size (by omega) hgrow
      · intro i hi
        exact capPush_getD_lt arr _ _ i x hi (Or.inr (by omega))
      · refine capPush_getD_self arr _ _ x ?_
        rw [capResize_length, if_neg hm0, hm]
        omega
    · have hm : chainGrowth arr.size = 0 := chainGrowth_rest arr.size hgrow
      have hlt : arr.size < arr.cap := by
        rcases Nat.lt_or_ge arr.size arr.cap with h | h
        · exact h
        · exfalso
          have heq : arr.size = arr.cap := by omega
          exact hgrow (by rw [heq]; exact hcapb)
      refine ⟨⟨?_, ?_, ?_, ?_⟩, capPush_size _ _ _ _, ?_, ?_⟩
      · rw [capPush_length, capPush_cap, hm]; simp [hlen]
      · rw [capPush_size, capPush_cap, hm]; simp; omega
      · rw [capPush_cap, hm]; simpa using hcap1
      · rw [capPush_cap, hm]; simpa using hcapb
      · intro i hi
        exact capPush_getD_lt arr _ _ i x hi (Or.inl hm)
      · refine capPush_getD_self arr _ _ x ?_
        rw [capResize_length, hm]
        simp
        omega

/-- Empty capacity-level MergeInfo, as left by CreateMergeInfo before any
push. -/
def emptyMergeInfoCap : MergeInfoCap :=
  { ClassNames := ⟨0, [], 0⟩,
    NumberOfOverrides := ⟨0, [], 0⟩,
    OverrideClasses := ⟨0, [], 0⟩ }

/-- Claim C7 (counterexample): a single override chain does NOT get
capacity 4 on its first insert — PushFunction creates it with capacity 1,
and after a second element is pushed its capacity is 2. -/
theorem claim_C7_cx :
    ((vtkParseMerge_PushFunctionCap emptyMergeInfoCap 0).2.OverrideClasses.data.getD 0 default).cap = 1 ∧
    (1 : Nat) ≠ 4 ∧
    ((vtkParseMerge_PushOverrideCap
        (vtkParseMerge_PushFunctionCap emptyMergeInfoCap 0).2 0 7).2.OverrideClasses.data.getD 0 default).cap = 2 ∧
    (2 : Nat) ≠ 4 := by
  refine ⟨by decide, by decide, by decide, by decide⟩

/-- Claim C7 (amended): for the class-name registry and the two parallel
per-function arrays, capacity jumps to 4 on the first insert and doubles
exactly when the current size is a power of two of at least 4; a single
override chain instead starts at capacity 1 (allocated by PushFunction)
and doubles whenever its current size is a power of two.  Under either
policy, every push past the end preserves all previously stored elements
at their values and positions — including across the boundaries 3 to 4,
7 to 8 and 15 to 16 — stores the new element at slot n, advances the
count by one, and keeps the allocation invariant. -/
theorem claim_C7 :
    (mergeGrowth 0 = 4) ∧
    (∀ n, 4 ≤ n → (n &&& (n - 1)) = 0 → mergeGrowth n = 2 * n) ∧
    (∀ n, n ≠ 0 → ¬(4 ≤ n ∧ (n &&& (n - 1)) = 0) → mergeGrowth n = 0) ∧
    (∀ n, (n &&& (n - 1)) = 0 → chainGrowth n = 2 * n) ∧
    (∀ (info : MergeInfoCap) (classname : String),
      CapInv info.ClassNames →
      findClassIndex (info.ClassNames.data.take info.ClassNames.size) classname = none →
      CapInv (vtkParseMerge_PushClassCap info classname).2.ClassNames ∧
      (vtkParseMerge_PushClassCap info classname).2.ClassNames.size =
        info.ClassNames.size + 1 ∧
      (∀ i, i < info.ClassNames.size →
        (vtkParseMerge_PushClassCap info classname).2.ClassNames.data.getD i default =
          info.ClassNames.data.getD i default) ∧
      (vtkParseMerge_PushClassCap info classname).2.ClassNames.data.getD info.ClassNames.size default =
        classname) ∧
    (∀ (info : MergeInfoCap) (depth : Nat),
      CapInv info.NumberOfOverrides → CapInv info.OverrideClasses →
      info.OverrideClasses.size = info.NumberOfOverrides.size →
      CapInv (vtkParseMerge_PushFunctionCap info depth).2.NumberOfOverrides ∧
      CapInv (vtkParseMerge_PushFunctionCap info depth).2.OverrideClasses ∧
      (∀ i, i < info.NumberOfOverrides.size →
        (vtkParseMerge_PushFunctionCap info depth).2.NumberOfOverrides.data.getD i default =
          info.NumberOfOverrides.data.getD i default ∧
        (vtkParseMerge_PushFunctionCap info depth).2.OverrideClasses.data.getD i default =
          info.OverrideClasses.data.getD i default) ∧
      (vtkParseMerge_PushFunctionCap info depth).2.OverrideClasses.data.getD info.NumberOfOverrides.size default =
        ⟨1, [depth], 1⟩) ∧
    (∀ (chain : CapArr Nat) (n depth : Nat),
      ChainInv chain → n = chain.size →
      ChainInv (capPush chain n (chainGrowth n) depth) ∧
      (capPush chain n (chainGrowth n) depth).size = n + 1 ∧
      (∀ j, j < n →
        (capPush chain n (chainGrowth n) depth).data.getD j default =
          chain.data.getD j default) ∧
      (capPush chain n (chainGrowth n) depth).data.getD n default = depth) := by
  refine ⟨rfl, mergeGrowth_pow, mergeGrowth_rest, chainGrowth_pow, ?_, ?_, ?_⟩
  · intro info classname hinv hmiss
    have hspec := capPush_mergeGrowth_spec info.ClassNames classname hinv
    have hres : (vtkParseMerge_PushClassCap info classname).2.ClassNames =
        capPush info.ClassNames info.ClassNames.size
          (mergeGrowth info.ClassNames.size) classname := by
      unfold vtkParseMerge_PushClassCap
      rw [hmiss]
    rw [hres]
    exact ⟨hspec.1, hspec.2.1, hspec.2.2.1, hspec.2.2.2⟩
  · intro info depth hno hoc hsz
    have hspec1 := capPush_mergeGrowth_spec info.NumberOfOverrides 1 hno
    have hspec2 := capPush_mergeGrowth_spec info.OverrideClasses
      (⟨1, [depth], 1⟩ : CapArr Nat) hoc
    have hres1 : (vtkParseMerge_PushFunctionCap info depth).2.NumberOfOverrides =
        capPush info.NumberOfOverrides info.NumberOfOverrides.size
          (mergeGrowth info.NumberOfOverrides.size) 1 := rfl
    have hres2 : (vtkParseMerge_PushFunctionCap info depth).2.OverrideClasses =
        capPush info.OverrideClasses info.NumberOfOverrides.size
          (mergeGrowth info.NumberOfOverrides.size) ⟨1, [depth], 1⟩ := rfl
    rw [hsz] at hspec2
    rw [hres1, hres2]
    exact ⟨hspec1.1, hspec2.1,
           fun i hi => ⟨hspec1.2.2.1 i hi, hspec2.2.2.1 i hi⟩,
           hspec2.2.2.2⟩
  · intro chain n depth hinv hn
    subst hn
    exact capPush_chainGrowth_spec chain depth hinv

/-- Full 16-slot class-name registry, about to cross the 15-to-16-to-32
boundary. -/
def arrC16 : CapArr String :=
  ⟨16, ["c0", "c1", "c2", "c3", "c4", "c5", "c6", "c7", "c8", "c9",
        "c10", "c11", "c12", "c13", "c14", "c15"], 16⟩

/-- Capacity-level MergeInfo holding the full 16-slot registry. -/
def infoC16 : MergeInfoCap :=
  { ClassNames := arrC16,
    NumberOfOverrides := ⟨0, [], 0⟩,
    OverrideClasses := ⟨0, [], 0⟩ }

/-- Full 8-slot override chain, about to cross the 7-to-8-to-16
boundary. -/
def chain8 : CapArr Nat := ⟨8, [10, 11, 12, 13, 14, 15, 16, 17], 8⟩

/-- Claim C7 witness: pushing the 17th class name into a full 16-slot
registry and a 9th depth onto a full 8-slot chain preserves the stored
elements across the doubling and stores the new elements at the end. -/
theorem claim_C7_witness :
    CapInv (vtkParseMerge_PushClassCap infoC16 "c16").2.ClassNames ∧
    (vtkParseMerge_PushClassCap infoC16 "c16").2.ClassNames.size = 17 ∧
    (vtkParseMerge_PushClassCap infoC16 "c16").2.ClassNames.data.getD 15 default = "c15" ∧
    (vtkParseMerge_PushClassCap infoC16 "c16").2.ClassNames.data.getD 16 default = "c16" ∧
    (capPush chain8 8 (chainGrowth 8) 99).size = 9 ∧
    (capPush chain8 8 (chainGrowth 8) 99).data.getD 7 default = 17 ∧
    (capPush chain8 8 (chainGrowth 8) 99).data.getD 8 default = 99 := by
  have h1 := claim_C7.2.2.2.2.1 infoC16 "c16"
    ⟨by decide, by decide, by decide⟩ (by decide)
  have h2 := claim_C7.2.2.2.2.2.2 chain8 8 99
    ⟨by decide, by decide, by decide, by decide⟩ rfl
  refine ⟨h1.1, h1.2.1, ?_, h1.2.2.2, h2.2.1, ?_, h2.2.2.2⟩
  · exact h1.2.2.1 15 (by decide)
  · exact h2.2.2.1 7 (by decide)

/-! Capacity-level model of the merge target for vtkParseMerge_Merge: the
Functions pointer array of the caller-supplied ClassInfo has a fixed
allocation that Merge writes into at index m without ever growing it.  The
Bool component records whether every such write so far was inside the
allocation. -/

/-- ClassInfo whose Functions array carries its allocation. -/
structure ClassInfoCap where
  Name : String
  SuperClasses : List String
  Functions : CapArr FunctionInfo
deriving Repr, DecidableEq

/-- Inner j-loop pass of vtkParseMerge_Merge over the capacity-level
target: identical to mergeMatchStep but reading and writing the cells of
the fixed-size array (in-place set at j, allocation untouched). -/
def mergeMatchStepCap (fname : String) (func : FunctionInfo) (depth : Nat)
    (acc : Bool × MergeInfo × ClassInfoCap) (j : Nat) :
    Bool × MergeInfo × ClassInfoCap :=
  let (mtch, info, merge) := acc
  let f2 := merge.Functions.data.getD j default
  match f2.Name with
  | some f2name =>
      if f2name = fname then
        if sigMatches f2 func then
          let f2m := merge_function f2 func
          let merge := { merge with Functions := { merge.Functions with data := merge.Functions.data.set j f2m } }
          let info := (vtkParseMerge_PushOverride info j depth).2
          (true, info, merge)
        else (true, info, merge)
      else (mtch, info, merge)
  | none => (mtch, info, merge)

/-- Outer i-loop pass of vtkParseMerge_Merge over the capacity-level
target: the append branch writes merge.Functions[m] and increments the
count without touching the allocation, recording whether the write index
was below cap. -/
def mergeStepCap (superName : String) (depth : Nat)
    (state : MergeInfo × ClassInfoCap × Bool) (func : FunctionInfo) :
    MergeInfo × ClassInfoCap × Bool :=
  let (info, merge, ok) := state
  match func.Name with
  | none => (info, merge, ok)
  | some fname =>
      if isCtorDtorOf fname superName then
        (info, merge, ok)
      else
        let r := (List.range merge.Functions.size).foldl
          (mergeMatchStepCap fname func depth) (false, info, merge)
        if r.1 then (r.2.1, r.2.2, ok)
        else
          let m := r.2.2.Functions.size
          let ok := ok && decide (m < r.2.2.Functions.cap)
          let info := (vtkParseMerge_PushFunction r.2.1 depth).2
          let merge := { r.2.2 with Functions := { r.2.2.Functions with data := r.2.2.Functions.data.set m (copy_function func), size := m + 1 } }
          (info, merge, ok)

/-- vtkParseMerge_Merge over the capacity-level target, starting with all
writes in bounds. -/
def vtkParseMerge_MergeCap (info : MergeInfo) (merge : ClassInfoCap)
    (super : ClassInfo) : Nat × MergeInfo × ClassInfoCap × Bool :=
  let (depth, info) := vtkParseMerge_PushClass info super.Name
  (depth, super.Functions.foldl (mergeStepCap super.Name depth)
    (info, merge, true))

theorem matchStepCap_capsize (fname : String) (func : FunctionInfo)
    (depth : Nat) (b : Bool) (info : MergeInfo) (m : ClassInfoCap) (j : Nat) :
    (mergeMatchStepCap fname func depth (b, info, m) j).2.2.Functions.cap =
        m.Functions.cap ∧
    (mergeMatchStepCap fname func depth (b, info, m) j).2.2.Functions.size =
        m.Functions.size := by
  simp only [mergeMatchStepCap]
  cases hn : (m.Functions.data.getD j default).Name with
  | none => exact ⟨rfl, rfl⟩
  | some f2name =>
      dsimp only
      by_cases he : f2name = fname
      · subst he
        rw [if_pos rfl]
        split
        · exact ⟨rfl, rfl⟩
        · exact ⟨rfl, rfl⟩
      · rw [if_neg he]
        exact ⟨rfl, rfl⟩

theorem innerFoldCap_capsize (fname : String) (func : FunctionInfo)
    (depth : Nat) :
    ∀ (js : List Nat) (b : Bool) (info : MergeInfo) (m : ClassInfoCap),
    ((js.foldl (mergeMatchStepCap fname func depth) (b, info, m)).2.2.Functions.cap =
        m.Functions.cap) ∧
    ((js.foldl (mergeMatchStepCap fname func depth) (b, info, m)).2.2.Functions.size =
        m.Functions.size) := by
  intro js
  induction js with
  | nil => intro b info m; exact ⟨rfl, rfl⟩
  | cons j js ih =>
      intro b info m
      have hs := matchStepCap_capsize fname func depth b info m j
      have hh := ih (mergeMatchStepCap fname func depth (b, info, m) j).1
        (mergeMatchStepCap fname func depth (b, info, m) j).2.1
        (mergeMatchStepCap fname func depth (b, info, m) j).2.2
      exact ⟨hh.1.trans hs.1, hh.2.trans hs.2⟩

theorem matchStepCap_indep (fname : String) (func : FunctionInfo)
    (depth : Nat) (b c : Bool) (info : MergeInfo) (m : ClassInfoCap) (j : Nat) :
    (mergeMatchStepCap fname func depth (b, info, m) j).2 =
      (mergeMatchStepCap fname func depth (c, info, m) j).2 := by
  simp only [mergeMatchStepCap]
  cases hn : (m.Functions.data.getD j default).Name with
  | none => rfl
  | some f2name =>
      dsimp only
      by_cases he : f2name = fname
      · subst he
        by_cases hs : sigMatches (m.Functions.data.getD j default) func = true
        · simp [hs]
        · simp [hs]
      · simp [he]

theorem stepCap_indep (sn : String) (d : Nat) (i : MergeInfo)
    (m : ClassInfoCap) (b c : Bool) (f : FunctionInfo) :
    (mergeStepCap sn d (i, m, b) f).1 = (mergeStepCap sn d (i, m, c) f).1 ∧
    (mergeStepCap sn d (i, m, b) f).2.1 = (mergeStepCap sn d (i, m, c) f).2.1 := by
  simp only [mergeStepCap]
  cases hn : f.Name with
  | none => exact ⟨rfl, rfl⟩
  | some fname =>
      dsimp only
      by_cases hcd : isCtorDtorOf fname sn
      · simp [hcd]
      · simp only [if_neg hcd]
        split
        · exact ⟨rfl, rfl⟩
        · exact ⟨rfl, rfl⟩

theorem stepCap_cap (sn : String) (d : Nat) (i : MergeInfo)
    (m : ClassInfoCap) (b : Bool) (f : FunctionInfo) :
    (mergeStepCap sn d (i, m, b) f).2.1.Functions.cap = m.Functions.cap := by
  simp only [mergeStepCap]
  cases hn : f.Name with
  | none => rfl
  | some fname =>
      dsimp only
      by_cases hcd : isCtorDtorOf fname sn
      · simp only [if_pos hcd]
      · simp only [if_neg hcd]
        split
        · exact (innerFoldCap_capsize fname f d _ false i m).1
        · exact (innerFoldCap_capsize fname f d _ false i m).1

theorem stepCap_size (sn : String) (d : Nat) (i : MergeInfo)
    (m : ClassInfoCap) (b : Bool) (f : FunctionInfo) :
    m.Functions.size ≤ (mergeStepCap sn d (i, m, b) f).2.1.Functions.size ∧
    (mergeStepCap sn d (i, m, b) f).2.1.Functions.size ≤ m.Functions.size + 1 := by
  simp only [mergeStepCap]
  cases hn : f.Name with
  | none => exact ⟨Nat.le_refl _, Nat.le_succ _⟩
  | some fname =>
      dsimp only
      by_cases hcd : isCtorDtorOf fname sn
      · simp only [if_pos hcd]
        exact ⟨Nat.le_refl _, Nat.le_succ _⟩
      · simp only [if_neg hcd]
        have hin := (innerFoldCap_capsize fname f d
          (List.range m.Functions.size) false i m).2
        split
        · rw [hin]
          exact ⟨Nat.le_refl _, Nat.le_succ _⟩
        · show m.Functions.size ≤ _ + 1 ∧ _ + 1 ≤ m.Functions.size + 1
          rw [hin]
          exact ⟨Nat.le_succ _, Nat.le_refl _⟩

theorem and_decide_le_lt (b : Bool) (s c : Nat) :
    ((b && decide (s ≤ c)) && decide (s < c)) = (b && decide (s + 1 ≤ c)) := by
  by_cases h : s < c
  · have h2 : s ≤ c := Nat.le_of_lt h
    have h3 : s + 1 ≤ c := h
    simp [h, h2, h3]
  · have h3 : ¬(s + 1 ≤ c) := h
    simp [h, h3]

theorem stepCap_ok (sn : String) (d : Nat) (i : MergeInfo)
    (m : ClassInfoCap) (b : Bool) (f : FunctionInfo) (cap0 : Nat)
    (hc : m.Functions.cap = cap0) :
    (mergeStepCap sn d (i, m, (b && decide (m.Functions.size ≤ cap0))) f).2.2 =
      (b && decide ((mergeStepCap sn d (i, m, b) f).2.1.Functions.size ≤ cap0)) := by
  simp only [mergeStepCap]
  cases hn : f.Name with
  | none => rfl
  | some fname =>
      dsimp only
      by_cases hcd : isCtorDtorOf fname sn
      · simp only [if_pos hcd]
      · simp only [if_neg hcd]
        have hin := innerFoldCap_capsize fname f d
          (List.range m.Functions.size) false i m
        split
        · rw [hin.2]
        · show ((b && decide (m.Functions.size ≤ cap0)) && decide (_ < _)) = _
          rw [hin.1, hin.2, hc]
          exact and_decide_le_lt b m.Functions.size cap0

theorem foldCap_indep (sn : String) (d : Nat) :
    ∀ (fs : List FunctionInfo) (i : MergeInfo) (m : ClassInfoCap) (b c : Bool),
    ((fs.foldl (mergeStepCap sn d) (i, m, b)).1 =
      (fs.foldl (mergeStepCap sn d) (i, m, c)).1) ∧
    ((fs.foldl (mergeStepCap sn d) (i, m, b)).2.1 =
      (fs.foldl (mergeStepCap sn d) (i, m, c)).2.1) := by
  intro fs
  induction fs with
  | nil => intro i m b c; exact ⟨rfl, rfl⟩
  | cons f fs ih =>
      intro i m b c
      have hstep := stepCap_indep sn d i m b c f
      have h1 := ih (mergeStepCap sn d (i, m, b) f).1
        (mergeStepCap sn d (i, m, b) f).2.1
        (mergeStepCap sn d (i, m, b) f).2.2
        (mergeStepCap sn d (i, m, c) f).2.2
      constructor
      · calc (fs.foldl (mergeStepCap sn d) (mergeStepCap sn d (i, m, b) f)).1
            = (fs.foldl (mergeStepCap sn d)
                ((mergeStepCap sn d (i, m, b) f).1,
                 (mergeStepCap sn d (i, m, b) f).2.1,
                 (mergeStepCap sn d (i, m, c) f).2.2)).1 := h1.1
          _ = (fs.foldl (mergeStepCap sn d) (mergeStepCap sn d (i, m, c) f)).1 := by
              rw [hstep.1, hstep.2]
      · calc (fs.foldl (mergeStepCap sn d) (mergeStepCap sn d (i, m, b) f)).2.1
            = (fs.foldl (mergeStepCap sn d)
                ((mergeStepCap sn d (i, m, b) f).1,
                 (mergeStepCap sn d (i, m, b) f).2.1,
                 (mergeStepCap sn d (i, m, c) f).2.2)).2.1 := h1.2
          _ = (fs.foldl (mergeStepCap sn d) (mergeStepCap sn d (i, m, c) f)).2.1 := by
              rw [hstep.1, hstep.2]

theorem foldCap_cap (sn : String) (d : Nat) :
    ∀ (fs : List FunctionInfo) (i : MergeInfo) (m : ClassInfoCap) (b : Bool),
    (fs.foldl (mergeStepCap sn d) (i, m, b)).2.1.Functions.cap =
      m.Functions.cap := by
  intro fs
  induction fs with
  | nil => intro i m b; rfl
  | cons f fs ih =>
      intro i m b
      exact (ih _ _ _).trans (stepCap_cap sn d i m b f)

theorem foldCap_size (sn : String) (d : Nat) :
    ∀ (fs : List FunctionInfo) (i : MergeInfo) (m : ClassInfoCap) (b : Bool),
    m.Functions.size ≤ (fs.foldl (mergeStepCap sn d) (i, m, b)).2.1.Functions.size ∧
    (fs.foldl (mergeStepCap sn d) (i, m, b)).2.1.Functions.size ≤
      m.Functions.size + fs.length := by
  intro fs
  induction fs with
  | nil => intro i m b; exact ⟨Nat.le_refl _, Nat.le_refl _⟩
  | cons f fs ih =>
      intro i m b
      have hstep := stepCap_size sn d i m b f
      have hh := ih (mergeStepCap sn d (i, m, b) f).1
        (mergeStepCap sn d (i, m, b) f).2.1
        (mergeStepCap sn d (i, m, b) f).2.2
      constructor
      · exact Nat.le_trans hstep.1 hh.1
      · refine Nat.le_trans hh.2 ?_
        simp only [List.length_cons]
        omega

theorem foldCap_ok (sn : String) (d : Nat) :
    ∀ (fs : List FunctionInfo) (i : MergeInfo) (m : ClassInfoCap) (b : Bool)
      (cap0 : Nat), m.Functions.cap = cap0 →
    (fs.foldl (mergeStepCap sn d) (i, m, (b && decide (m.Functions.size ≤ cap0)))).2.2 =
      (b && decide ((fs.foldl (mergeStepCap sn d) (i, m, b)).2.1.Functions.size ≤ cap0)) := by
  intro fs
  induction fs with
  | nil => intro i m b cap0 hc; rfl
  | cons f fs ih =>
      intro i m b cap0 hc
      have hok := stepCap_ok sn d i m b f cap0 hc
      have hindep := stepCap_indep sn d i m
        (b && decide (m.Functions.size ≤ cap0)) b f
      have hcap2 : (mergeStepCap sn d (i, m, b) f).2.1.Functions.cap = cap0 :=
        (stepCap_cap sn d i m b f).trans hc
      have hih := ih (mergeStepCap sn d (i, m, b) f).1
        (mergeStepCap sn d (i, m, b) f).2.1 b cap0 hcap2
      have hfi := foldCap_indep sn d fs (mergeStepCap sn d (i, m, b) f).1
        (mergeStepCap sn d (i, m, b) f).2.1 b
        (mergeStepCap sn d (i, m, b) f).2.2
      calc (fs.foldl (mergeStepCap sn d)
              (mergeStepCap sn d (i, m, (b && decide (m.Functions.size ≤ cap0))) f)).2.2
          = (fs.foldl (mergeStepCap sn d)
              ((mergeStepCap sn d (i, m, b) f).1,
               (mergeStepCap sn d (i, m, b) f).2.1,
               (b && decide ((mergeStepCap sn d (i, m, b) f).2.1.Functions.size ≤ cap0)))).2.2 := by
            rw [← hok, ← hindep.1, ← hindep.2]
        _ = (b && decide ((fs.foldl (mergeStepCap sn d)
              ((mergeStepCap sn d (i, m, b) f).1,
               (mergeStepCap sn d (i, m, b) f).2.1, b)).2.1.Functions.size ≤ cap0)) := hih
        _ = (b && decide ((fs.foldl (mergeStepCap sn d)
              (mergeStepCap sn d (i, m, b) f)).2.1.Functions.size ≤ cap0)) := by
            rw [hfi.2]

/-- Claim C10: vtkParseMerge_Merge writes appended methods at index m and
increments the count without ever enlarging the Functions array — the
allocation is constant across the call, the count grows by at most the
number of super methods, and (given the count started within the
allocation) every write lands in bounds exactly when the final count still
fits the caller-supplied capacity, so staying in bounds requires the
caller to have provided spare capacity for every appended method. -/
theorem claim_C10 (info : MergeInfo) (merge : ClassInfoCap)
    (super : ClassInfo) :
    (vtkParseMerge_MergeCap info merge super).2.2.1.Functions.cap =
        merge.Functions.cap ∧
    merge.Functions.size ≤
        (vtkParseMerge_MergeCap info merge super).2.2.1.Functions.size ∧
    (vtkParseMerge_MergeCap info merge super).2.2.1.Functions.size ≤
        merge.Functions.size + super.Functions.length ∧
    (merge.Functions.size ≤ merge.Functions.cap →
      ((vtkParseMerge_MergeCap info merge super).2.2.2 = true ↔
       (vtkParseMerge_MergeCap info merge super).2.2.1.Functions.size ≤
         merge.Functions.cap)) := by
  unfold vtkParseMerge_MergeCap
  refine ⟨foldCap_cap _ _ super.Functions _ merge true,
          (foldCap_size _ _ super.Functions _ merge true).1,
          (foldCap_size _ _ super.Functions _ merge true).2, ?_⟩
  intro hpre
  have h := foldCap_ok (super.Name) (vtkParseMerge_PushClass info super.Name).1
    super.Functions (vtkParseMerge_PushClass info super.Name).2 merge true
    merge.Functions.cap rfl
  have hstart : (true && decide (merge.Functions.size ≤ merge.Functions.cap)) = true := by
    simp [hpre]
  rw [hstart] at h
  rw [h]
  simp

/-- Capacity-2 merge target holding one method, with one free slot. -/
def mgCap2 : ClassInfoCap :=
  { Name := "B", SuperClasses := ["A"],
    Functions := ⟨2, [mkMethod "Foo" [1] none false, default], 1⟩ }

/-- Claim C10 witness: merging ancestor A (constructor and destructor
skipped, GetX appended) into a capacity-2 target with one used slot keeps
the allocation at 2, and the in-bounds flag is equivalent to the final
count fitting the capacity. -/
theorem claim_C10_witness :
    (vtkParseMerge_MergeCap (vtkParseMerge_CreateMergeInfo classB_ctor)
        mgCap2 classA_ctor).2.2.1.Functions.cap = mgCap2.Functions.cap ∧
    ((vtkParseMerge_MergeCap (vtkParseMerge_CreateMergeInfo classB_ctor)
        mgCap2 classA_ctor).2.2.2 = true ↔
     (vtkParseMerge_MergeCap (vtkParseMerge_CreateMergeInfo classB_ctor)
        mgCap2 classA_ctor).2.2.1.Functions.size ≤ mgCap2.Functions.cap) := by
  have h := claim_C10 (vtkParseMerge_CreateMergeInfo classB_ctor) mgCap2
    classA_ctor
  exact ⟨h.1, h.2.2.2 (by decide)⟩

end WrapVTK
